import Mathlib

set_option maxRecDepth 100000

/-!
Shallow embedding of the ATSVG raster-to-vector tracing engine.

Two implementations of the engine live in the repository:
* `src/js/imagetrace.js`, embedded in namespace `IT` below: the
  contour-following tracer (quantize / medianCut / createIndexedImage /
  layerSeparation / tracePaths / simplifyPath / pathToSvg / blur / trace);
* the `ImageTracer` class of the library module (`src/examples/usage.js`,
  second document), embedded in namespace `UT` below: the run-length /
  rectangle-merging tracer (quantizeColors / getPalette / mapToPalette /
  createColorRects / mergeRects / trace).

Modelling conventions: pixel bytes are `ℕ` (they come out of
`Uint8ClampedArray`s), indexed values are `ℤ` (`-1` marks transparency),
exact fractional arithmetic (`Math.round(sum/n)`, luma) is `ℚ`, and the
floating-point values produced by `Math.exp` and `Math.sqrt` (blur kernel,
perpendicular distances) are `ℝ`.  Places where IEEE doubles could diverge
from the exact model are noted next to the definitions; every concrete
computation used by a theorem below is far from such a boundary.
-/

namespace MC

/-! Median-cut machinery shared verbatim (up to the pixel record type) by
`medianCut` in imagetrace.js and `quantizeColors` in the library module.
`α` is the pixel record type and `ch` the channel projection `p[channel]`. -/

variable {α : Type}

inductive Channel where
  | r
  | g
  | b
  deriving DecidableEq, Repr

/-- Math.max over a spread argument list; JS returns `-Infinity` on an empty
list, but every use below is guarded by a length check, so `0` is safe. -/
def listMax : List ℕ → ℕ
  | [] => 0
  | x :: xs => xs.foldl max x

/-- Math.min over a spread argument list; same emptiness caveat as `listMax`. -/
def listMin : List ℕ → ℕ
  | [] => 0
  | x :: xs => xs.foldl min x

/-- Range `Math.max(...values) - Math.min(...values)` of one channel over a
box (imagetrace.js:81-82, usage.js ImageTracer.quantizeColors). -/
def boxRange (ch : Channel → α → ℕ) (c : Channel) (box : List α) : ℕ :=
  listMax (box.map (ch c)) - listMin (box.map (ch c))

/-- Inner channel loop of the bucket scan: a box with fewer than two members
is skipped, otherwise the running (maxRange, maxBox, maxChannel) triple is
updated whenever a channel's range strictly exceeds the running maximum
(first-found wins ties). -/
def scanBox (ch : Channel → α → ℕ) (i : ℕ) (box : List α)
    (acc : ℕ × ℕ × Channel) : ℕ × ℕ × Channel :=
  if box.length < 2 then acc
  else
    [Channel.r, Channel.g, Channel.b].foldl
      (fun st c =>
        let range := boxRange ch c box
        if st.1 < range then (range, i, c) else st)
      acc

/-- Outer box loop of the scan, `i` being the index of the first box. -/
def scanBoxes (ch : Channel → α → ℕ) : ℕ → List (List α) → (ℕ × ℕ × Channel) → ℕ × ℕ × Channel
  | _, [], acc => acc
  | i, box :: rest, acc => scanBoxes ch (i+1) rest (scanBox ch i box acc)

/-- The full scan for the (box, channel) pair of largest range, starting from
`maxRange = 0, maxBox = 0, maxChannel = 'r'`. -/
def findMaxRange (ch : Channel → α → ℕ) (boxes : List (List α)) : ℕ × ℕ × Channel :=
  scanBoxes ch 0 boxes (0, 0, Channel.r)

/-- Stable insert used by `sortByKey`. -/
def insertByKey (key : α → ℕ) (x : α) : List α → List α
  | [] => [x]
  | y :: ys => if key y < key x then y :: insertByKey key x ys else x :: y :: ys

/-- `Array.prototype.sort` with comparator `(a, b) => a[ch] - b[ch]`: a stable
ascending sort by the selected channel, modelled by stable insertion sort. -/
def sortByKey (key : α → ℕ) : List α → List α
  | [] => []
  | x :: xs => insertByKey key x (sortByKey key xs)

/-- One split: sort the selected box by the selected channel and replace it by
its two halves, `boxes.splice(maxBox, 1, box.slice(0, mid), box.slice(mid))`. -/
def splitStep (ch : Channel → α → ℕ) (boxes : List (List α))
    (maxBox : ℕ) (maxChannel : Channel) : List (List α) :=
  let box := boxes.getD maxBox []
  let sorted := sortByKey (ch maxChannel) box
  let mid := sorted.length / 2
  boxes.take maxBox ++ [sorted.take mid, sorted.drop mid] ++ boxes.drop (maxBox + 1)

end MC

namespace IT

/-! The tracer of `src/js/imagetrace.js`. -/

/-- A pixel record as pushed by `quantize` (imagetrace.js:48-53). -/
structure Pix where
  r : ℕ
  g : ℕ
  b : ℕ
  a : ℕ
  deriving DecidableEq, Repr

/-- Channel projection `p[channel]` for `Pix`. -/
def pixCh : MC.Channel → Pix → ℕ
  | .r, p => p.r
  | .g, p => p.g
  | .b, p => p.b

/-- An ImageData value: `width × height` RGBA pixels, `data` row-major. -/
structure ImageData where
  width : ℕ
  height : ℕ
  data : List ℕ
  deriving DecidableEq, Repr

inductive ColorMode where
  | color
  | grayscale
  | monochrome
  deriving DecidableEq, Repr

/-- The option fields of `defaultOptions` (imagetrace.js:10-38) that the
embedded functions consult.  The remaining fields (colorsampling,
mincolorratio, colorquantcycles, qtres, rightangleenhance, strokewidth,
linefilter, viewbox, desc, blurdelta) are read by no embedded code path. -/
structure TraceOptions where
  numberofcolors : ℤ
  pathomit : ℕ
  ltres : ℝ
  scale : ℚ
  roundcoords : ℕ
  blurradius : ℕ
  colorMode : ColorMode
  threshold : ℚ

/-- defaultOptions (imagetrace.js:10-38). -/
def defaultOptions : TraceOptions :=
  ⟨16, 8, 1, 1, 1, 0, .color, 128⟩

/-- Pixel-collection loop of `quantize` (imagetrace.js:45-55): step through
`data` four bytes at a time and keep every pixel whose alpha is nonzero.  A
trailing chunk of fewer than four bytes reads `undefined` for its alpha in
JS, `undefined > 0` is false and the pixel is skipped — the catch-all case. -/
def collectPixels : List ℕ → List Pix
  | r :: g :: b :: a :: rest =>
    (if 0 < a then [⟨r, g, b, a⟩] else []) ++ collectPixels rest
  | _ => []

/-- The `while` loop of `medianCut` (imagetrace.js:71-98) with an explicit
fuel for the unbounded `while`.  Each iteration either returns or replaces
one box by two, so under the `boxes.length < numColors` guard it runs at most
`numColors - boxes.length` times; `medianCutLoop_fuel_succ` below shows the
result is fuel-independent from that point on, so the `numColors.toNat` fuel
passed by `medianCut` computes exactly what the JS loop does. -/
def medianCutLoop (numColors : ℤ) (pixels : List Pix) : ℕ → List (List Pix) → List (List Pix)
  | 0, boxes => boxes
  | fuel + 1, boxes =>
    if (boxes.length : ℤ) < numColors ∧ boxes.length < pixels.length then
      let m := MC.findMaxRange pixCh boxes
      if m.1 = 0 then boxes
      else medianCutLoop numColors pixels fuel (MC.splitStep pixCh boxes m.2.1 m.2.2)
    else boxes

/-- `Math.round(s / n)` for natural `s` and positive natural `n`: rounding
half toward positive infinity equals `⌊(2s + n) / (2n)⌋`, which is how it is
computed here so that concrete palettes kernel-evaluate;
`jsRoundDiv_eq_floor` below proves this equal to `⌊s/n + 1/2⌋`, the exact
value of the JS expression (up to IEEE double rounding of the quotient, a
boundary no embedded computation sits near). -/
def jsRoundDiv (s n : ℕ) : ℕ := (2 * s + n) / (2 * n)

/-- Average color of one box (imagetrace.js:100-115): component-wise
`Math.round` of the mean, alpha included; an empty box yields neutral gray. -/
def boxAvg (box : List Pix) : Pix :=
  if box.length = 0 then ⟨128, 128, 128, 255⟩
  else
    ⟨jsRoundDiv (box.map Pix.r).sum box.length,
     jsRoundDiv (box.map Pix.g).sum box.length,
     jsRoundDiv (box.map Pix.b).sum box.length,
     jsRoundDiv (box.map Pix.a).sum box.length⟩

/-- medianCut (imagetrace.js:64-116). -/
def medianCut (pixels : List Pix) (numColors : ℤ) : List Pix :=
  if pixels.length = 0 ∨ numColors < 1 then [⟨128, 128, 128, 255⟩]
  else (medianCutLoop numColors pixels numColors.toNat [pixels]).map boxAvg

/-- quantize (imagetrace.js:41-62): collect the nonzero-alpha pixels; an empty
collection short-circuits to a single transparent-black entry `{0,0,0,0}`
before `medianCut` (and its gray fallback) is ever reached. -/
def quantize (imgd : ImageData) (options : TraceOptions) : List Pix :=
  let pixels := collectPixels imgd.data
  if pixels.length = 0 then [⟨0, 0, 0, 0⟩]
  else medianCut pixels options.numberofcolors

/-- The indexed image produced by `createIndexedImage`. -/
structure IndexedImage where
  array : List ℤ
  width : ℕ
  height : ℕ
  deriving DecidableEq, Repr

/-- Distance scan of `createIndexedImage` (imagetrace.js:135-150): squared
RGB distance to each palette entry, strict improvement updates, so the first
entry attaining the minimum wins; `minDist` starts at `Infinity`, modelled by
the `none` state of the accumulator. -/
def nearestIdx (palette : List Pix) (r g b : ℕ) : ℕ :=
  (palette.enum.foldl
    (fun acc jp =>
      let dist := ((r : ℤ) - jp.2.r)^2 + ((g : ℤ) - jp.2.g)^2 + ((b : ℤ) - jp.2.b)^2
      match acc.1 with
      | none => (some dist, jp.1)
      | some m => if dist < m then (some dist, jp.1) else acc)
    (none, 0)).2

/-- Index of one pixel (imagetrace.js:123-152).  A read past the end of the
buffer yields `undefined` in JS: `undefined < 128` is false, every palette
distance is `NaN`, no `dist < minDist` test succeeds, and the initial
`colorIdx = 0` is stored — the `none` branch. -/
def pixelIndex (data : List ℕ) (palette : List Pix) (i : ℕ) : ℤ :=
  match data.get? (4*i + 3) with
  | some a =>
    if a < 128 then -1
    else (nearestIdx palette (data.getD (4*i) 0) (data.getD (4*i+1) 0) (data.getD (4*i+2) 0) : ℤ)
  | none => 0

/-- createIndexedImage (imagetrace.js:119-156). -/
def createIndexedImage (imgd : ImageData) (palette : List Pix) : IndexedImage :=
  ⟨(List.range (imgd.width * imgd.height)).map (pixelIndex imgd.data palette),
   imgd.width, imgd.height⟩

/-- A layer: binary mask plus the palette color it represents. -/
structure Layer where
  array : List ℕ
  width : ℕ
  height : ℕ
  color : Pix
  deriving DecidableEq, Repr

/-- layerSeparation (imagetrace.js:159-184): one 0/1 mask per palette index;
an index whose mask stays empty contributes no layer. -/
def layerSeparation (indexed : IndexedImage) (palette : List Pix) : List Layer :=
  (List.range palette.length).filterMap (fun (colorIdx : ℕ) =>
    let c : ℤ := colorIdx
    if indexed.array.contains c then
      some ⟨indexed.array.map (fun v => if v = c then (1 : ℕ) else 0),
            indexed.width, indexed.height, palette.getD colorIdx ⟨0, 0, 0, 0⟩⟩
    else none)

end IT

namespace UT

/-! The `ImageTracer` class of the library module (second document of
`src/examples/usage.js`): run-length / rectangle-merging tracer. -/

/-- A pixel record as pushed by `getPalette` (`{r, g, b}`, no alpha). -/
structure UPix where
  r : ℕ
  g : ℕ
  b : ℕ
  deriving DecidableEq, Repr

/-- A palette entry produced by `quantizeColors` (`{r, g, b, count}`). -/
structure PalEntry where
  r : ℕ
  g : ℕ
  b : ℕ
  count : ℕ
  deriving DecidableEq, Repr

/-- Channel projection `p[channel]` for `UPix`. -/
def pixCh : MC.Channel → UPix → ℕ
  | .r, p => p.r
  | .g, p => p.g
  | .b, p => p.b

/-- The `while (buckets.length < numColors)` loop of `quantizeColors`, fuel
standing in for the unbounded `while` exactly as in `IT.medianCutLoop`
(this variant has no `< pixels.length` conjunct in its guard). -/
def quantizeLoop (numColors : ℤ) : ℕ → List (List UPix) → List (List UPix)
  | 0, buckets => buckets
  | fuel + 1, buckets =>
    if (buckets.length : ℤ) < numColors then
      let m := MC.findMaxRange pixCh buckets
      if m.1 = 0 then buckets
      else quantizeLoop numColors fuel (MC.splitStep pixCh buckets m.2.1 m.2.2)
    else buckets

/-- Average color of one bucket (`reduce` over r,g,b then `Math.round`,
count = bucket size); an empty bucket yields `{0,0,0,count:0}`. -/
def bucketAvg (bucket : List UPix) : PalEntry :=
  if bucket.length = 0 then ⟨0, 0, 0, 0⟩
  else
    ⟨IT.jsRoundDiv (bucket.map UPix.r).sum bucket.length,
     IT.jsRoundDiv (bucket.map UPix.g).sum bucket.length,
     IT.jsRoundDiv (bucket.map UPix.b).sum bucket.length,
     bucket.length⟩

/-- quantizeColors(pixels, numColors): median cut ending in a
`filter(c => c.count > 0)`; an empty pixel set or `numColors < 1`
short-circuits to a single `{128,128,128,count:0}` entry. -/
def quantizeColors (pixels : List UPix) (numColors : ℤ) : List PalEntry :=
  if pixels.length = 0 ∨ numColors < 1 then [⟨128, 128, 128, 0⟩]
  else
    ((quantizeLoop numColors numColors.toNat [pixels]).map bucketAvg).filter
      (fun c => 0 < c.count)

/-- Pixel collection of `getPalette`: four bytes at a time, keeping pixels
with alpha strictly above 128 (`a > 128`); a trailing chunk shorter than four
bytes reads `undefined` for its alpha and is skipped. -/
def collectOpaque : List ℕ → List UPix
  | r :: g :: b :: a :: rest =>
    (if 128 < a then [⟨r, g, b⟩] else []) ++ collectOpaque rest
  | _ => []

/-- getPalette(data, width, height, numColors); `width` and `height` are
unused by the source body but kept in the signature. -/
def getPalette (data : List ℕ) (_width _height : ℕ) (numColors : ℤ) : List PalEntry :=
  quantizeColors (collectOpaque data) numColors

/-- Nearest-entry scan of `mapToPalette`: squared RGB distance, strict
improvement, `minDist` starting at `Infinity` (the `none` accumulator). -/
def nearestEntry (palette : List PalEntry) (r g b : ℕ) : ℕ :=
  (palette.enum.foldl
    (fun acc jp =>
      let dist := ((r : ℤ) - jp.2.r)^2 + ((g : ℤ) - jp.2.g)^2 + ((b : ℤ) - jp.2.b)^2
      match acc.1 with
      | none => (some dist, jp.1)
      | some m => if dist < m then (some dist, jp.1) else acc)
    (none, 0)).2

/-- Per-pixel body of `mapToPalette`: `-1` when alpha `< 128`, else the
nearest palette index. -/
def mapChunks (palette : List PalEntry) : List ℕ → List ℤ
  | r :: g :: b :: a :: rest =>
    (if a < 128 then (-1 : ℤ) else (nearestEntry palette r g b : ℤ)) ::
      mapChunks palette rest
  | _ => []

/-- mapToPalette(data, palette): `new Int16Array(data.length / 4)` builds an
array of length `⌊data.length / 4⌋` — a fractional length is truncated by
ToIndex (ES2017), not a RangeError.  Every slot `k < ⌊len/4⌋` is written from
the full four-byte chunk starting at `4k`; when `len % 4 ≠ 0` the loop's last
iteration reads `undefined` bytes from the trailing partial chunk (its
`a < 128` test is false on `undefined` and its store targets the
out-of-range slot `⌊len/4⌋`, which a typed array silently drops), so the
result is exactly the map over the full chunks — which is what `mapChunks`'s
catch-all arm yields.  Indices are modelled as unbounded integers; the Int16
wrap-around at 32768 is unreachable for the palette sizes any embedded
caller produces. -/
def mapToPalette (data : List ℕ) (palette : List PalEntry) : List ℤ :=
  mapChunks palette data

/-- An axis-aligned run rectangle `{x, y, w, h}`. -/
structure Rect where
  x : ℕ
  y : ℕ
  w : ℕ
  h : ℕ
  deriving DecidableEq, Repr

/-- One row of `createColorRects`: `x` sweeps `0..width` inclusive, a run is
open while `runStart` is set (`-1` in JS is the `none` state), and a run
closes either on a non-matching pixel or at the `x = width` sentinel.  An
out-of-range `indexed[idx]` read is `undefined`, which never equals
`colorIdx` — hence the `get?` comparison. -/
def rowScan (indexed : List ℤ) (width y colorIdx : ℕ) : List Rect :=
  ((List.range (width + 1)).foldl
    (fun (st : Option ℕ × List Rect) x =>
      let isColor := x < width ∧ indexed.get? (y * width + x) = some (colorIdx : ℤ)
      if isColor then
        match st.1 with
        | none => (some x, st.2)
        | some _ => st
      else
        match st.1 with
        | none => st
        | some s => (none, st.2 ++ [⟨s, y, x - s, 1⟩]))
    (none, [])).2

/-- Strict lexicographic comparator `a.y - b.y || a.x - b.x < 0`. -/
def rectLt (a b : Rect) : Prop := a.y < b.y ∨ (a.y = b.y ∧ a.x < b.x)

instance : DecidablePred fun p : Rect × Rect => rectLt p.1 p.2 := by
  intro p; unfold rectLt; infer_instance

instance (a b : Rect) : Decidable (rectLt a b) := by
  unfold rectLt; infer_instance

/-- Stable insert for `mergeRects`'s sort. -/
def insertRect (x : Rect) : List Rect → List Rect
  | [] => [x]
  | y :: ys => if rectLt y x then y :: insertRect x ys else x :: y :: ys

/-- `rects.sort((a, b) => a.y - b.y || a.x - b.x)`: stable ascending sort by
`(y, x)`, modelled by stable insertion sort. -/
def sortRects : List Rect → List Rect
  | [] => []
  | x :: xs => insertRect x (sortRects xs)

/-- Merge loop of `mergeRects`: extend `current` downward while the next
rectangle has the same `x` and `w` and starts exactly at `current`'s bottom
edge; `current` is flushed when the chain breaks and once at the end. -/
def mergeLoop : List Rect → Rect → List Rect → List Rect
  | [], current, merged => merged ++ [current]
  | rect :: rest, current, merged =>
    if rect.x = current.x ∧ rect.w = current.w ∧ rect.y = current.y + current.h then
      mergeLoop rest ⟨current.x, current.y, current.w, current.h + rect.h⟩ merged
    else mergeLoop rest rect (merged ++ [current])

/-- mergeRects(rects): early return on an empty list, else sort and merge. -/
def mergeRects (rects : List Rect) : List Rect :=
  if rects.length = 0 then rects
  else
    match sortRects rects with
    | [] => []
    | first :: rest => mergeLoop rest first []

/-- createColorRects(indexed, width, height, colorIdx): row-by-row run-length
encoding followed by the vertical merge. -/
def createColorRects (indexed : List ℤ) (width height colorIdx : ℕ) : List Rect :=
  mergeRects
    ((List.range height).foldl (fun acc y => acc ++ rowScan indexed width y colorIdx) [])

/-- Luma `0.299 R + 0.587 G + 0.114 B` as an exact rational (the JS doubles
differ from this by at most a few ulps; no embedded theorem sits near the
boundary where that matters). -/
def luma (r g b : ℕ) : ℚ := (299 * r + 587 * g + 114 * b) / 1000

/-- toGrayscale (library module): a fresh buffer with each RGB replaced by the
rounded luma, alpha copied.  Trailing chunks shorter than four bytes hit
`undefined` reads in JS: with three bytes the luma is defined and the
out-of-range writes are dropped; with one or two bytes the luma is `NaN` and
the clamped store of `NaN`/`Math.round(NaN)` is 0. -/
def toGrayscaleU : List ℕ → List ℕ
  | r :: g :: b :: a :: rest =>
    let v := IT.jsRoundDiv (299 * r + 587 * g + 114 * b) 1000
    v :: v :: v :: a :: toGrayscaleU rest
  | [r, g, b] => [IT.jsRoundDiv (299 * r + 587 * g + 114 * b) 1000,
                  IT.jsRoundDiv (299 * r + 587 * g + 114 * b) 1000,
                  IT.jsRoundDiv (299 * r + 587 * g + 114 * b) 1000]
  | [_, _] => [0, 0]
  | [_] => [0]
  | [] => []

/-- toMonochrome (library module): pure white when the luma is strictly above
the threshold (`gray > threshold`), else pure black; alpha copied; same
trailing-chunk behavior as `toGrayscaleU`. -/
def toMonochromeU (threshold : ℚ) : List ℕ → List ℕ
  | r :: g :: b :: a :: rest =>
    let v := if threshold < luma r g b then 255 else 0
    v :: v :: v :: a :: toMonochromeU threshold rest
  | [r, g, b] =>
    if threshold < luma r g b then [255, 255, 255] else [0, 0, 0]
  | [_, _] => [0, 0]
  | [_] => [0]
  | [] => []

inductive TMode where
  | color
  | grayscale
  | monochrome
  deriving DecidableEq, Repr

/-- The merged option record `{...this.options, ...options}` consulted by
`ImageTracer.trace`.  Constructor defaults are `colorCount 16`,
`threshold 128`, `traceMode 'color'`; `blurRadius` and `pathSimplify` are
stored by the constructor but read by no embedded code path.  Any traceMode
string other than 'grayscale'/'monochrome' takes the color path, so `TMode`
needs only three constructors. -/
structure UOpts where
  colorCount : ℤ
  threshold : ℚ
  traceMode : TMode
  deriving DecidableEq, Repr

def rgbStr (c : PalEntry) : String :=
  "rgb(" ++ toString c.r ++ "," ++ toString c.g ++ "," ++ toString c.b ++ ")"

def rectStr (rc : Rect) : String :=
  "    <rect x=\"" ++ toString rc.x ++ "\" y=\"" ++ toString rc.y ++
  "\" width=\"" ++ toString rc.w ++ "\" height=\"" ++ toString rc.h ++ "\"/>\n"

def pathSegStr (rc : Rect) : String :=
  "M" ++ toString rc.x ++ " " ++ toString rc.y ++ "h" ++ toString rc.w ++
  "v" ++ toString rc.h ++ "h" ++ toString (-(rc.w : ℤ)) ++ "z"

/-- One `<g>` group of the emitted document: nothing when the color has no
rectangles, a single compound `<path>` beyond 100 rectangles, individual
`<rect>` elements otherwise. -/
def groupStr (color : PalEntry) (rects : List Rect) : String :=
  if rects.length = 0 then ""
  else
    "  <g fill=\"" ++ rgbStr color ++ "\" shape-rendering=\"crispEdges\">\n" ++
    (if 100 < rects.length then
      "    <path d=\"" ++ String.join (rects.map pathSegStr) ++ "\"/>\n"
    else String.join (rects.map rectStr)) ++
    "  </g>\n"

/-- ImageTracer.trace(data, width, height, options) with `opts` the merged
option record.  `processedData` starts as `new Uint8ClampedArray(data)` (a
copy, so the color path carries `data`'s bytes unchanged); grayscale and
monochrome build fresh buffers.  No step on this path can throw — in
particular `new Int16Array(data.length / 4)` truncates a fractional length —
and no check of `data.length` against `width × height × 4` exists anywhere,
so a document string comes back for every input. -/
def trace (opts : UOpts) (data : List ℕ) (width height : ℕ) : String :=
  let processedData :=
    match opts.traceMode with
    | .grayscale => toGrayscaleU data
    | .monochrome => toMonochromeU opts.threshold data
    | .color => data
  let numColors : ℤ := if opts.traceMode = .monochrome then 2 else opts.colorCount
  let palette := getPalette processedData width height numColors
  let indexed := mapToPalette processedData palette
  let header :=
    "<svg xmlns=\"http://www.w3.org/2000/svg\" width=\"" ++ toString width ++
    "\" height=\"" ++ toString height ++ "\" viewBox=\"0 0 " ++ toString width ++
    " " ++ toString height ++ "\">\n" ++ "  <title>Traced with ATSVG</title>\n"
  let body := String.join ((List.range palette.length).map (fun i =>
    groupStr (palette.getD i ⟨0, 0, 0, 0⟩) (createColorRects indexed width height i)))
  header ++ body ++ "</svg>"

end UT

namespace IT

/-- A path point `{x, y}`; coordinates are JS numbers, modelled as exact
rationals (the tracer itself only produces integer grid coordinates). -/
structure Pt where
  x : ℚ
  y : ℚ
  deriving DecidableEq, Repr

/-- perpendicularDistance (imagetrace.js:280-301), real-valued because of
`Math.sqrt`. -/
noncomputable def perpendicularDistance (point lineStart lineEnd : Pt) : ℝ :=
  let dx : ℚ := lineEnd.x - lineStart.x
  let dy : ℚ := lineEnd.y - lineStart.y
  if dx = 0 ∧ dy = 0 then
    Real.sqrt (((point.x - lineStart.x)^2 + (point.y - lineStart.y)^2 : ℚ) : ℝ)
  else
    let t : ℚ := ((point.x - lineStart.x) * dx + (point.y - lineStart.y) * dy) /
      (dx * dx + dy * dy)
    let nearestX := lineStart.x + t * dx
    let nearestY := lineStart.y + t * dy
    Real.sqrt (((point.x - nearestX)^2 + (point.y - nearestY)^2 : ℚ) : ℝ)

/-- The interior scan of `simplifyPath` (imagetrace.js:257-269): maximum
perpendicular distance over points `1 .. length-2`, strict improvement
updates (first maximum wins), starting from `maxDist = 0, maxIdx = 0`. -/
noncomputable def maxPerp (points : List Pt) : ℝ × ℕ :=
  (List.range' 1 (points.length - 2)).foldl
    (fun acc i =>
      let dist := perpendicularDistance (points.getD i ⟨0, 0⟩)
        (points.getD 0 ⟨0, 0⟩) (points.getD (points.length - 1) ⟨0, 0⟩)
      if acc.1 < dist then (dist, i) else acc)
    (0, 0)

/-- simplifyPath (imagetrace.js:254-278) with explicit recursion fuel.  The
JS function recurses on `points.slice(0, maxIdx+1)` and `points.slice(maxIdx)`;
when `maxIdx` stays 0 with `maxDist = 0 > tolerance` (possible only for a
negative tolerance) the second slice is the whole path and the recursion
never returns - the engine dies with a stack overflow.  `none` models that:
it appears exactly at fuel exhaustion, `simplifyPathF_le_fuel` (theorem
section) shows fuel `points.length` always suffices when `0 ≤ tolerance`,
and `rdpDiverges` states that no fuel at all suffices (true divergence). -/
noncomputable def simplifyPathF (tolerance : ℝ) : ℕ → List Pt → Option (List Pt)
  | fuel, points =>
    if points.length ≤ 2 then some points
    else
      match fuel with
      | 0 => none
      | fuel + 1 =>
        let m := maxPerp points
        if tolerance < m.1 then
          match simplifyPathF tolerance fuel (points.take (m.2 + 1)),
              simplifyPathF tolerance fuel (points.drop m.2) with
          | some left, some right => some (left.dropLast ++ right)
          | _, _ => none
        else some [points.getD 0 ⟨0, 0⟩, points.getD (points.length - 1) ⟨0, 0⟩]

/-- simplifyPath with its canonical sufficient fuel. -/
noncomputable def simplifyPath (points : List Pt) (tolerance : ℝ) : Option (List Pt) :=
  simplifyPathF tolerance points.length points

/-- True divergence of the JS recursion on a given input: no fuel suffices,
i.e. the recursion tree is infinite and the JS call never returns. -/
def rdpDiverges (points : List Pt) (tolerance : ℝ) : Prop :=
  ∀ fuel, simplifyPathF tolerance fuel points = none

/-- Number.prototype.toFixed on an exact rational: `round(q·10^f)` with ties
toward the larger integer, then `f` decimals printed.  (JS formats the
sign of a negative zero result as "-0.0"; this model prints "0.0" - no
embedded theorem evaluates that corner.) -/
def toFixedQ (q : ℚ) (f : ℕ) : String :=
  let n : ℤ := ⌊q * (10 : ℚ)^f + 1/2⌋
  if f = 0 then toString n
  else
    let an := n.natAbs
    let base := (10 : ℕ)^f
    let fracStr := toString (an % base)
    let pad := String.mk (List.replicate (f - fracStr.length) '0')
    (if n < 0 then "-" else "") ++ toString (an / base) ++ "." ++ pad ++ fracStr

/-- pathToSvg (imagetrace.js:304-325): the empty path and any path whose
simplified form has fewer than two points serialize to the empty string;
`none` propagates a diverging simplification (unreachable at `ltres ≥ 0`). -/
noncomputable def pathToSvg (path : List Pt) (options : TraceOptions) : Option String :=
  if path.length = 0 then some ""
  else
    match simplifyPath path options.ltres with
    | none => none
    | some simplified =>
      if simplified.length < 2 then some ""
      else
        let r := fun (val : ℚ) => toFixedQ (val * options.scale) options.roundcoords
        let d0 := "M " ++ r (simplified.getD 0 ⟨0, 0⟩).x ++ " " ++
          r (simplified.getD 0 ⟨0, 0⟩).y
        let d := (List.range' 1 (simplified.length - 1)).foldl
          (fun acc i => acc ++ " L " ++ r (simplified.getD i ⟨0, 0⟩).x ++ " " ++
            r (simplified.getD i ⟨0, 0⟩).y) d0
        some (d ++ " Z")

/-- Direction vectors `dx` (right, down, left, up). -/
def dxv (d : ℕ) : ℤ := [1, 0, -1, 0].getD d 0

/-- Direction vectors `dy` (right, down, left, up). -/
def dyv (d : ℕ) : ℤ := [0, 1, 0, -1].getD d 0

/-- getPixel of tracePaths (imagetrace.js:197-200): 0 outside bounds. -/
def getPixel (layer : Layer) (x y : ℤ) : ℕ :=
  if x < 0 ∨ (layer.width : ℤ) ≤ x ∨ y < 0 ∨ (layer.height : ℤ) ≤ y then 0
  else layer.array.getD (y * layer.width + x).toNat 0

/-- isEdge (imagetrace.js:202-206): a set pixel with at least one unset
axis-aligned neighbor (out-of-bounds counts as unset). -/
def isEdge (layer : Layer) (x y : ℤ) : Prop :=
  getPixel layer x y ≠ 0 ∧
    (getPixel layer (x-1) y = 0 ∨ getPixel layer (x+1) y = 0 ∨
      getPixel layer x (y-1) = 0 ∨ getPixel layer x (y+1) = 0)

instance (layer : Layer) (x y : ℤ) : Decidable (isEdge layer x y) := by
  unfold isEdge
  infer_instance

/-- The direction search inside the walk (imagetrace.js:225-237): try the
four candidates starting with a right turn relative to the current heading;
the first set edge pixel wins. -/
def findNext (layer : Layer) (cx cy : ℤ) (dir : ℕ) : Option (ℤ × ℤ × ℕ) :=
  [0, 1, 2, 3].findSome? (fun i =>
    let newDir := (dir + 3 + i) % 4
    let nx := cx + dxv newDir
    let ny := cy + dyv newDir
    if getPixel layer nx ny ≠ 0 ∧ isEdge layer nx ny then some (nx, ny, newDir)
    else none)

/-- The do-while boundary walk (imagetrace.js:219-241): push the current
pixel, mark it visited, advance to the first right-turn edge neighbor, stop
when stuck, back at the start, or out of steps.  `fuel` carries
`maxSteps - 1 - steps`; callers pass `4·width·height - 1`, so the walk
continues exactly while `(cx,cy) ≠ start ∧ steps < maxSteps` as in JS. -/
def walkAux (layer : Layer) (startX startY : ℤ) :
    ℕ → ℤ → ℤ → ℕ → List Pt → List Bool → List Pt × List Bool
  | fuel, cx, cy, dir, path, visited =>
    let pathOut := path ++ [⟨(cx : ℚ), (cy : ℚ)⟩]
    let visitedOut := visited.set (cy * layer.width + cx).toNat true
    match findNext layer cx cy dir with
    | none => (pathOut, visitedOut)
    | some (nx, ny, newDir) =>
      if nx ≠ startX ∨ ny ≠ startY then
        match fuel with
        | 0 => (pathOut, visitedOut)
        | fuel + 1 => walkAux layer startX startY fuel nx ny newDir pathOut visitedOut
      else (pathOut, visitedOut)

/-- tracePaths (imagetrace.js:187-251): scan the grid in row-major order,
start a walk at every unvisited edge pixel, keep paths whose point count is
at least `pathomit`. -/
def tracePaths (layer : Layer) (options : TraceOptions) : List (List Pt) :=
  ((List.range (layer.height * layer.width)).foldl
    (fun (st : List Bool × List (List Pt)) i =>
      let x : ℤ := (i % layer.width : ℕ)
      let y : ℤ := (i / layer.width : ℕ)
      if getPixel layer x y ≠ 0 ∧ st.1.getD i false = false ∧ isEdge layer x y then
        let res := walkAux layer x y (layer.width * layer.height * 4 - 1) x y 0 [] st.1
        if options.pathomit ≤ res.1.length then (res.2, st.2 ++ [res.1])
        else (res.2, st.2)
      else st)
    (List.replicate (layer.width * layer.height) false, [])).2

/-- Luma `0.299 R + 0.587 G + 0.114 B` as an exact rational (imagetrace.js
duplicates the library module's formula). -/
def luma (r g b : ℕ) : ℚ := (299 * r + 587 * g + 114 * b) / 1000

/-- toGrayscale (imagetrace.js:363-372): in-place per-pixel luma replacement
(alpha untouched); the result is the state of the caller's buffer.  Trailing
chunks shorter than four bytes hit `undefined` reads: with three bytes the
luma is defined, with one or two it is `NaN` and the clamped store is 0. -/
def toGrayscale : List ℕ → List ℕ
  | r :: g :: b :: a :: rest =>
    let v := jsRoundDiv (299 * r + 587 * g + 114 * b) 1000
    v :: v :: v :: a :: toGrayscale rest
  | [r, g, b] => [jsRoundDiv (299 * r + 587 * g + 114 * b) 1000,
                  jsRoundDiv (299 * r + 587 * g + 114 * b) 1000,
                  jsRoundDiv (299 * r + 587 * g + 114 * b) 1000]
  | [_, _] => [0, 0]
  | [_] => [0]
  | [] => []

/-- toMonochrome (imagetrace.js:375-385): in-place; white when the luma is
**at or above** the threshold (`>=`, unlike the library variant's `>`). -/
def toMonochrome (threshold : ℚ) : List ℕ → List ℕ
  | r :: g :: b :: a :: rest =>
    let v := if threshold ≤ luma r g b then 255 else 0
    v :: v :: v :: a :: toMonochrome threshold rest
  | [r, g, b] =>
    if threshold ≤ luma r g b then [255, 255, 255] else [0, 0, 0]
  | [_, _] => [0, 0]
  | [_] => [0]
  | [] => []

/-- The normalized Gaussian-shaped kernel of `blur` (imagetrace.js:396-409):
raw weights `exp(-(k-radius)² / (2·radius²))`, each then divided by their
sum.  `Math.exp` is modelled by the exact real exponential; the bounds used
by the theorems below are far outside double-rounding reach. -/
noncomputable def gaussKernel (radius : ℕ) : List ℝ :=
  let raw := (List.range (2 * radius + 1)).map
    (fun i => Real.exp (-(((i : ℝ) - radius)^2) / (2 * radius^2)))
  raw.map (fun v => v / raw.sum)

/-- Edge-clamping of a tap position into `[0, limit-1]`
(`Math.min(limit - 1, Math.max(0, pos))`). -/
def clampTap (limit : ℕ) (pos : ℤ) : ℕ :=
  (min ((limit : ℤ) - 1) (max 0 pos)).toNat

/-- Buffer index of horizontal tap `k` for output position `(x, y)`,
channel `c`. -/
def tapIndexH (w y x radius k c : ℕ) : ℕ :=
  (y * w + clampTap w ((x : ℤ) + k - radius)) * 4 + c

/-- Buffer index of vertical tap `k`. -/
def tapIndexV (w h y x radius k c : ℕ) : ℕ :=
  (clampTap h ((y : ℤ) + k - radius) * w + x) * 4 + c

/-- One convolution sum over the kernel taps; `none` when any tap reads past
the buffer (in JS the `undefined` read turns the whole accumulated sum into
`NaN`). -/
noncomputable def convolveTaps (src : List ℕ) (kernel : List ℝ) (size : ℕ)
    (idx : ℕ → ℕ) : Option ℝ :=
  if (List.range size).all (fun k => idx k < src.length) then
    some (∑ k ∈ Finset.range size, (src.getD (idx k) 0 : ℝ) * kernel.getD k 0)
  else none

/-- A `Uint8ClampedArray` store: clamp into `[0, 255]`, round half to even;
`NaN` (the `none` case) stores 0. -/
noncomputable def clampStore : Option ℝ → ℕ
  | none => 0
  | some v =>
    let x := min 255 (max 0 v)
    let f := ⌊x⌋
    (if x - f < 1/2 then f
     else if 1/2 < x - f then f + 1
     else if f % 2 = 0 then f else f + 1).toNat

/-- blur (imagetrace.js:388-456): a no-op below radius 1; otherwise a
horizontal pass into a fresh copy (`output`) of the buffer, then a vertical
pass written **back into the caller's buffer**, which is also the returned
object.  In-grid indices (below `4·w·h`) are overwritten; any further bytes
keep their previous values; writes past the buffer length are dropped. -/
noncomputable def blur (imgd : ImageData) (radius : ℕ) : ImageData :=
  if radius < 1 then imgd
  else
    let w := imgd.width
    let h := imgd.height
    let size := 2 * radius + 1
    let kernel := gaussKernel radius
    let output := (List.range imgd.data.length).map (fun idx =>
      if idx < 4 * w * h then
        clampStore (convolveTaps imgd.data kernel size
          (fun k => tapIndexH w (idx / 4 / w) ((idx / 4) % w) radius k (idx % 4)))
      else imgd.data.getD idx 0)
    let newData := (List.range imgd.data.length).map (fun idx =>
      if idx < 4 * w * h then
        clampStore (convolveTaps output kernel size
          (fun k => tapIndexV w h (idx / 4 / w) ((idx / 4) % w) radius k (idx % 4)))
      else imgd.data.getD idx 0)
    ⟨w, h, newData⟩

/-- The preprocessing prefix of `trace` (imagetrace.js:459-472): the state of
the caller's `imgd` after `trace` has run, the downstream stages
(quantize / index / layers / emit) being pure readers.  `blur` writes its
vertical pass into `imgd.data`, and grayscale/monochrome rewrite it pixel by
pixel, so this is the buffer the caller observes after tracing. -/
noncomputable def traceState (imgd : ImageData) (options : TraceOptions) : ImageData :=
  let afterBlur := if 0 < options.blurradius then blur imgd options.blurradius else imgd
  match options.colorMode with
  | .grayscale => ⟨afterBlur.width, afterBlur.height, toGrayscale afterBlur.data⟩
  | .monochrome =>
    ⟨afterBlur.width, afterBlur.height, toMonochrome options.threshold afterBlur.data⟩
  | .color => afterBlur

end IT

/-! Spec-side views and concrete fixtures used by the claim theorems. -/

/-- Chunking a buffer into its 4-byte RGBA pixels (the spec's PixelBuffer
view, a trailing partial chunk dropped); used only to state which pixel sets
the two collectors select. -/
def rgbaChunks : List ℕ → List IT.Pix
  | r :: g :: b :: a :: rest => ⟨r, g, b, a⟩ :: rgbaChunks rest
  | _ => []

/-- Number of distinct RGB colors in a pixel list (the spec's "distinct
colors present"). -/
def distinctColors (pixels : List IT.Pix) : ℕ :=
  ((pixels.map (fun p => (p.r, p.g, p.b))).dedup).length

/-- Membership of a grid cell in a rectangle, for the tiling statement. -/
def UT.rectCovers (rc : UT.Rect) (x y : ℕ) : Prop :=
  rc.x ≤ x ∧ x < rc.x + rc.w ∧ rc.y ≤ y ∧ y < rc.y + rc.h

instance (rc : UT.Rect) (x y : ℕ) : Decidable (UT.rectCovers rc x y) := by
  unfold UT.rectCovers; infer_instance

/-- The 2×2 buffer of C2: left column pure opaque red, right column pure
opaque blue, row-major RGBA. -/
def fxC2Data : List ℕ :=
  [255, 0, 0, 255,  0, 0, 255, 255,  255, 0, 0, 255,  0, 0, 255, 255]

/-- Options for C2: colorCount 2, color mode (threshold at its default). -/
def fxC2Opts : UT.UOpts := ⟨2, 128, .color⟩

/-- The document the library tracer emits for the C2 scenario. -/
def fxC2Svg : String :=
  "<svg xmlns=\"http://www.w3.org/2000/svg\" width=\"2\" height=\"2\" viewBox=\"0 0 2 2\">\n" ++
  "  <title>Traced with ATSVG</title>\n" ++
  "  <g fill=\"rgb(0,0,255)\" shape-rendering=\"crispEdges\">\n" ++
  "    <rect x=\"1\" y=\"0\" width=\"1\" height=\"2\"/>\n" ++
  "  </g>\n" ++
  "  <g fill=\"rgb(255,0,0)\" shape-rendering=\"crispEdges\">\n" ++
  "    <rect x=\"0\" y=\"0\" width=\"1\" height=\"2\"/>\n" ++
  "  </g>\n" ++
  "</svg>"

/-- A mismatched buffer for C1: eight bytes on a claimed 1×1 canvas. -/
def fxC1Data : List ℕ := [0, 0, 0, 0, 0, 0, 0, 0]

/-- Default-valued merged options for C1. -/
def fxC1Opts : UT.UOpts := ⟨16, 128, .color⟩

/-- The document the library tracer emits for the mismatched C1 buffer. -/
def fxC1Svg : String :=
  "<svg xmlns=\"http://www.w3.org/2000/svg\" width=\"1\" height=\"1\" viewBox=\"0 0 1 1\">\n" ++
  "  <title>Traced with ATSVG</title>\n" ++
  "</svg>"

/-- A second mismatched buffer for the C1 witness: ten bytes on 1×1, a
length that is not even a multiple of four. -/
def fxC1WitnessData : List ℕ :=
  [1, 2, 3, 255, 4, 5, 6, 255, 7, 8]

/-- A ten-byte buffer (two transparent pixels plus a two-byte partial chunk)
declared 1×1: its length is not a multiple of four, yet tracing it emits a
complete document (C1). -/
def fxC1OddData : List ℕ := [0, 0, 0, 0, 0, 0, 0, 0, 9, 9]

/-- A 1×1 fully transparent image (C4). -/
def fxTransparentImg : IT.ImageData := ⟨1, 1, [0, 0, 0, 0]⟩

/-- A single pure opaque red pixel (C4). -/
def fxRed : IT.Pix := ⟨255, 0, 0, 255⟩

/-- A 1×1 image whose pixel has alpha 50: below the indexer's 128 cutoff but
above the quantizer's `a > 0` test (C5). -/
def fxC5Img : IT.ImageData := ⟨1, 1, [10, 20, 30, 50]⟩

/-- imagetrace.js options with all defaults (numberofcolors 16). -/
def fxOpts16 : IT.TraceOptions := ⟨16, 8, 1, 1, 1, 0, .color, 128⟩

/-- imagetrace.js options with numberofcolors 3 (C3 witness). -/
def fxOpts3 : IT.TraceOptions := ⟨3, 8, 1, 1, 1, 0, .color, 128⟩

/-- A 1×1 image with one fully opaque pixel (C7's empty-palette
counterexample). -/
def fxOpaqueImg : IT.ImageData := ⟨1, 1, [10, 20, 30, 200]⟩

/-- Five pixels in two distinct colors (two red, three blue): median cut at a
large requested count leaves three buckets, not two (C6). -/
def fxC6Pixels : List IT.Pix :=
  [⟨255, 0, 0, 255⟩, ⟨255, 0, 0, 255⟩, ⟨0, 0, 255, 255⟩, ⟨0, 0, 255, 255⟩, ⟨0, 0, 255, 255⟩]

/-- Three coincident points: the degenerate path on which the JS simplifier
recurses forever when the tolerance is negative (C8). -/
def fxDegeneratePath : List IT.Pt := [⟨0, 0⟩, ⟨0, 0⟩, ⟨0, 0⟩]

/-- A three-point non-collinear path for the C8 witness. -/
def fxC8Path : List IT.Pt := [⟨0, 0⟩, ⟨1, 5⟩, ⟨2, 0⟩]

/-- A 2×1 image, left pixel black and right pixel white, both opaque: bluring
it visibly changes the left pixel's bytes (C9). -/
def fxBlurImg : IT.ImageData := ⟨2, 1, [0, 0, 0, 255, 255, 255, 255, 255]⟩

/-- Options with blur radius 1 and color mode (C9). -/
def fxBlurOpts : IT.TraceOptions := ⟨16, 8, 1, 1, 1, 1, .color, 128⟩

/-- A 3×3 layer whose only set pixel is the isolated center (C10). -/
def fxC10Layer : IT.Layer := ⟨[0, 0, 0, 0, 1, 0, 0, 0, 0], 3, 3, fxRed⟩

/-- Options with pathomit 1, so even one-point paths are kept by
`tracePaths` (C10). -/
def fxC10Opts : IT.TraceOptions := ⟨16, 1, 1, 1, 1, 0, .color, 128⟩

namespace MC

variable {α : Type}

/-- The invariant delivered by the bucket scan: a strictly positive maximum
range points at an in-bounds box with at least two members. -/
def goodScan {α : Type} (boxes : List (List α)) (m : ℕ × ℕ × Channel) : Prop :=
  0 < m.1 → m.2.1 < boxes.length ∧ 2 ≤ (boxes.getD m.2.1 []).length

theorem scanBox_good {α : Type} (ch : Channel → α → ℕ) (boxes : List (List α))
    (i : ℕ) (box : List α) (acc : ℕ × ℕ × Channel)
    (hbox : box = boxes.getD i []) (hacc : goodScan boxes acc) :
    goodScan boxes (scanBox ch i box acc) := by
  unfold scanBox
  split
  · exact hacc
  · rename_i hlen
    push_neg at hlen
    have hi : i < boxes.length := by
      by_contra hge
      push_neg at hge
      rw [List.getD_eq_default _ _ (by simpa using hge)] at hbox
      simp [hbox] at hlen
    have step : ∀ (cs : List Channel) (st : ℕ × ℕ × Channel), goodScan boxes st →
        goodScan boxes (cs.foldl
          (fun st c =>
            let range := boxRange ch c box
            if st.1 < range then (range, i, c) else st) st) := by
      intro cs
      induction cs with
      | nil => intro st h; exact h
      | cons c cs ih =>
        intro st h
        apply ih
        simp only []
        split
        · intro _
          exact ⟨hi, by rw [← hbox]; omega⟩
        · exact h
    exact step _ acc hacc

theorem scanBoxes_good {α : Type} (ch : Channel → α → ℕ) (boxes : List (List α)) :
    ∀ (bs : List (List α)) (i : ℕ) (acc : ℕ × ℕ × Channel),
      (∀ k, bs.getD k [] = boxes.getD (i + k) []) →
      goodScan boxes acc → goodScan boxes (scanBoxes ch i bs acc) := by
  intro bs
  induction bs with
  | nil => intro i acc _ hacc; exact hacc
  | cons box rest ih =>
    intro i acc hrel hacc
    simp only [scanBoxes]
    apply ih (i + 1)
    · intro k
      have := hrel (k + 1)
      simpa [Nat.add_assoc, Nat.add_comm 1 k] using this
    · exact scanBox_good ch boxes i box acc (by simpa using hrel 0) hacc

theorem findMaxRange_good {α : Type} (ch : Channel → α → ℕ) (boxes : List (List α)) :
    goodScan boxes (findMaxRange ch boxes) := by
  apply scanBoxes_good ch boxes boxes 0 _ (fun k => by simp)
  intro h
  exact absurd h (by simp)

theorem insertByKey_length {α : Type} (key : α → ℕ) (x : α) (l : List α) :
    (insertByKey key x l).length = l.length + 1 := by
  induction l with
  | nil => rfl
  | cons y ys ih =>
    simp only [insertByKey]
    split <;> simp [ih]

theorem sortByKey_length {α : Type} (key : α → ℕ) (l : List α) :
    (sortByKey key l).length = l.length := by
  induction l with
  | nil => rfl
  | cons x xs ih => simp [sortByKey, insertByKey_length, ih]

theorem splitStep_length_ge {α : Type} (ch : Channel → α → ℕ) (boxes : List (List α))
    (mb : ℕ) (mc : Channel) :
    boxes.length + 1 ≤ (splitStep ch boxes mb mc).length := by
  unfold splitStep
  simp only [List.length_append, List.length_take, List.length_drop,
    List.length_cons, List.length_nil]
  omega

theorem splitStep_length_eq {α : Type} (ch : Channel → α → ℕ) (boxes : List (List α))
    (mb : ℕ) (mc : Channel) (h : mb < boxes.length) :
    (splitStep ch boxes mb mc).length = boxes.length + 1 := by
  unfold splitStep
  simp only [List.length_append, List.length_take, List.length_drop,
    List.length_cons, List.length_nil]
  omega

theorem splitStep_nonempty {α : Type} (ch : Channel → α → ℕ) (boxes : List (List α))
    (mb : ℕ) (mc : Channel) (hall : ∀ b ∈ boxes, b ≠ [])
    (hlen : 2 ≤ (boxes.getD mb []).length) :
    ∀ b ∈ splitStep ch boxes mb mc, b ≠ [] := by
  intro b hb
  unfold splitStep at hb
  set s := sortByKey (ch mc) (boxes.getD mb []) with hs
  have hslen : 2 ≤ s.length := by rw [hs, sortByKey_length]; exact hlen
  simp only [List.mem_append, List.mem_cons, List.not_mem_nil, or_false] at hb
  rcases hb with (h1 | h2 | h2) | h3
  · exact hall b (List.take_subset _ _ h1)
  · subst h2
    have hpos : 0 < (s.take (s.length / 2)).length := by
      rw [List.length_take]; omega
    exact List.ne_nil_of_length_pos hpos
  · subst h2
    have hpos : 0 < (s.drop (s.length / 2)).length := by
      rw [List.length_drop]; omega
    exact List.ne_nil_of_length_pos hpos
  · exact hall b (List.drop_subset _ _ h3)


end MC

namespace IT

theorem medianCutLoop_succ (numColors : ℤ) (pixels : List Pix) (fuel : ℕ)
    (boxes : List (List Pix)) :
    medianCutLoop numColors pixels (fuel + 1) boxes =
      if (boxes.length : ℤ) < numColors ∧ boxes.length < pixels.length then
        if (MC.findMaxRange pixCh boxes).1 = 0 then boxes
        else
          medianCutLoop numColors pixels fuel
            (MC.splitStep pixCh boxes (MC.findMaxRange pixCh boxes).2.1
              (MC.findMaxRange pixCh boxes).2.2)
      else boxes := rfl

/-- Fuel faithfulness: as soon as the fuel covers `numColors - boxes.length`,
one more unit of fuel changes nothing, so `medianCut`'s `numColors.toNat`
fuel computes exactly the unbounded JS `while` loop. -/
theorem medianCutLoop_fuel_succ (numColors : ℤ) (pixels : List Pix) :
    ∀ (fuel : ℕ) (boxes : List (List Pix)), numColors ≤ (boxes.length : ℤ) + fuel →
      medianCutLoop numColors pixels (fuel + 1) boxes =
        medianCutLoop numColors pixels fuel boxes := by
  intro fuel
  induction fuel with
  | zero =>
    intro boxes h
    rw [medianCutLoop_succ]
    rw [if_neg]
    · rfl
    · push_neg
      intro hlt
      omega
  | succ fuel ih =>
    intro boxes h
    rw [medianCutLoop_succ numColors pixels (fuel + 1) boxes,
      medianCutLoop_succ numColors pixels fuel boxes]
    by_cases hg : (boxes.length : ℤ) < numColors ∧ boxes.length < pixels.length
    · rw [if_pos hg, if_pos hg]
      by_cases hm : (MC.findMaxRange pixCh boxes).1 = 0
      · rw [if_pos hm, if_pos hm]
      · rw [if_neg hm, if_neg hm]
        apply ih
        have hge := MC.splitStep_length_ge pixCh boxes (MC.findMaxRange pixCh boxes).2.1
          (MC.findMaxRange pixCh boxes).2.2
        push_cast at h ⊢
        omega
    · rw [if_neg hg, if_neg hg]

/-- The loop invariants of the splitting loop: the box list stays nonempty,
all boxes stay nonempty, and the box count respects both the `numColors`
guard and the `pixels.length` guard. -/
theorem medianCutLoop_invariants (numColors : ℤ) (pixels : List Pix) :
    ∀ (fuel : ℕ) (boxes : List (List Pix)),
      1 ≤ boxes.length → (∀ b ∈ boxes, b ≠ []) →
      1 ≤ (medianCutLoop numColors pixels fuel boxes).length ∧
      (∀ b ∈ medianCutLoop numColors pixels fuel boxes, b ≠ []) ∧
      ((boxes.length : ℤ) ≤ numColors →
        ((medianCutLoop numColors pixels fuel boxes).length : ℤ) ≤ numColors) ∧
      (boxes.length ≤ pixels.length →
        (medianCutLoop numColors pixels fuel boxes).length ≤ pixels.length) := by
  intro fuel
  induction fuel with
  | zero =>
    intro boxes h1 h2
    exact ⟨h1, h2, fun h => h, fun h => h⟩
  | succ fuel ih =>
    intro boxes h1 h2
    rw [medianCutLoop_succ]
    by_cases hg : (boxes.length : ℤ) < numColors ∧ boxes.length < pixels.length
    · rw [if_pos hg]
      by_cases hm : (MC.findMaxRange pixCh boxes).1 = 0
      · rw [if_pos hm]
        exact ⟨h1, h2, fun h => h, fun h => h⟩
      · rw [if_neg hm]
        have hgood := MC.findMaxRange_good pixCh boxes (Nat.pos_of_ne_zero hm)
        have hlen := MC.splitStep_length_eq pixCh boxes (MC.findMaxRange pixCh boxes).2.1
          (MC.findMaxRange pixCh boxes).2.2 hgood.1
        have hne := MC.splitStep_nonempty pixCh boxes (MC.findMaxRange pixCh boxes).2.1
          (MC.findMaxRange pixCh boxes).2.2 h2 hgood.2
        have hmain := ih (MC.splitStep pixCh boxes (MC.findMaxRange pixCh boxes).2.1
          (MC.findMaxRange pixCh boxes).2.2) (by omega) hne
        refine ⟨hmain.1, hmain.2.1, fun _ => hmain.2.2.1 ?_, fun _ => hmain.2.2.2 ?_⟩
        · rw [show ((MC.splitStep pixCh boxes (MC.findMaxRange pixCh boxes).2.1
              (MC.findMaxRange pixCh boxes).2.2).length : ℤ) = (boxes.length : ℤ) + 1 by
            rw [hlen]; push_cast; ring]
          omega
        · omega
    · rw [if_neg hg]
      exact ⟨h1, h2, fun h => h, fun h => h⟩

/-- Palette-size bounds for `medianCut` on a nonempty pixel set. -/
theorem medianCut_bounds (pixels : List Pix) (numColors : ℤ)
    (hp : pixels ≠ []) (hN : 1 ≤ numColors) :
    1 ≤ (medianCut pixels numColors).length ∧
    ((medianCut pixels numColors).length : ℤ) ≤ numColors ∧
    (medianCut pixels numColors).length ≤ pixels.length := by
  have hplen : 1 ≤ pixels.length := List.length_pos.mpr hp
  unfold medianCut
  rw [if_neg (by push_neg; exact ⟨by omega, by omega⟩)]
  rw [List.length_map]
  have := medianCutLoop_invariants numColors pixels numColors.toNat [pixels]
    (by simp) (by simpa using hp)
  refine ⟨this.1, this.2.2.1 (by simpa using hN), this.2.2.2 (by simpa using hplen)⟩

/-- Palette-size bounds for `quantize`. -/
theorem quantize_bounds (imgd : ImageData) (opts : TraceOptions)
    (hN : 1 ≤ opts.numberofcolors) :
    1 ≤ (quantize imgd opts).length ∧
    ((quantize imgd opts).length : ℤ) ≤ opts.numberofcolors := by
  unfold quantize
  by_cases hp : (collectPixels imgd.data).length = 0
  · rw [if_pos hp]
    exact ⟨by simp, by simpa using hN⟩
  · rw [if_neg hp]
    have := medianCut_bounds (collectPixels imgd.data) opts.numberofcolors
      (by intro h; exact hp (by simp [h])) hN
    exact ⟨this.1, this.2.1⟩

end IT

namespace UT

theorem quantizeLoop_succ (numColors : ℤ) (fuel : ℕ) (buckets : List (List UPix)) :
    quantizeLoop numColors (fuel + 1) buckets =
      if (buckets.length : ℤ) < numColors then
        if (MC.findMaxRange pixCh buckets).1 = 0 then buckets
        else
          quantizeLoop numColors fuel
            (MC.splitStep pixCh buckets (MC.findMaxRange pixCh buckets).2.1
              (MC.findMaxRange pixCh buckets).2.2)
      else buckets := rfl

/-- Fuel faithfulness for the `quantizeColors` loop (which, unlike the
imagetrace.js loop, has no `< pixels.length` conjunct in its guard). -/
theorem quantizeLoop_fuel_succ (numColors : ℤ) :
    ∀ (fuel : ℕ) (buckets : List (List UPix)), numColors ≤ (buckets.length : ℤ) + fuel →
      quantizeLoop numColors (fuel + 1) buckets = quantizeLoop numColors fuel buckets := by
  intro fuel
  induction fuel with
  | zero =>
    intro buckets h
    rw [quantizeLoop_succ]
    rw [if_neg (by omega)]
    rfl
  | succ fuel ih =>
    intro buckets h
    rw [quantizeLoop_succ numColors (fuel + 1) buckets,
      quantizeLoop_succ numColors fuel buckets]
    by_cases hg : (buckets.length : ℤ) < numColors
    · rw [if_pos hg, if_pos hg]
      by_cases hm : (MC.findMaxRange pixCh buckets).1 = 0
      · rw [if_pos hm, if_pos hm]
      · rw [if_neg hm, if_neg hm]
        apply ih
        have hge := MC.splitStep_length_ge pixCh buckets (MC.findMaxRange pixCh buckets).2.1
          (MC.findMaxRange pixCh buckets).2.2
        push_cast at h ⊢
        omega
    · rw [if_neg hg, if_neg hg]

theorem quantizeLoop_invariants (numColors : ℤ) :
    ∀ (fuel : ℕ) (buckets : List (List UPix)),
      1 ≤ buckets.length → (∀ b ∈ buckets, b ≠ []) →
      1 ≤ (quantizeLoop numColors fuel buckets).length ∧
      (∀ b ∈ quantizeLoop numColors fuel buckets, b ≠ []) ∧
      ((buckets.length : ℤ) ≤ numColors →
        ((quantizeLoop numColors fuel buckets).length : ℤ) ≤ numColors) := by
  intro fuel
  induction fuel with
  | zero =>
    intro buckets h1 h2
    exact ⟨h1, h2, fun h => h⟩
  | succ fuel ih =>
    intro buckets h1 h2
    rw [quantizeLoop_succ]
    by_cases hg : (buckets.length : ℤ) < numColors
    · rw [if_pos hg]
      by_cases hm : (MC.findMaxRange pixCh buckets).1 = 0
      · rw [if_pos hm]
        exact ⟨h1, h2, fun h => h⟩
      · rw [if_neg hm]
        have hgood := MC.findMaxRange_good pixCh buckets (Nat.pos_of_ne_zero hm)
        have hlen := MC.splitStep_length_eq pixCh buckets (MC.findMaxRange pixCh buckets).2.1
          (MC.findMaxRange pixCh buckets).2.2 hgood.1
        have hne := MC.splitStep_nonempty pixCh buckets (MC.findMaxRange pixCh buckets).2.1
          (MC.findMaxRange pixCh buckets).2.2 h2 hgood.2
        have hmain := ih (MC.splitStep pixCh buckets (MC.findMaxRange pixCh buckets).2.1
          (MC.findMaxRange pixCh buckets).2.2) (by omega) hne
        refine ⟨hmain.1, hmain.2.1, fun _ => hmain.2.2 ?_⟩
        rw [show ((MC.splitStep pixCh buckets (MC.findMaxRange pixCh buckets).2.1
            (MC.findMaxRange pixCh buckets).2.2).length : ℤ) = (buckets.length : ℤ) + 1 by
          rw [hlen]; push_cast; ring]
        omega
    · rw [if_neg hg]
      exact ⟨h1, h2, fun h => h⟩

/-- Every bucket reaching the averaging step is nonempty, so the final
`count > 0` filter of `quantizeColors` keeps every entry. -/
theorem quantizeColors_bounds (pixels : List UPix) (numColors : ℤ)
    (hN : 1 ≤ numColors) :
    1 ≤ (quantizeColors pixels numColors).length ∧
    ((quantizeColors pixels numColors).length : ℤ) ≤ numColors := by
  unfold quantizeColors
  by_cases hp : pixels.length = 0 ∨ numColors < 1
  · rw [if_pos hp]
    exact ⟨by simp, by simpa using hN⟩
  · rw [if_neg hp]
    push_neg at hp
    have hinv := quantizeLoop_invariants numColors numColors.toNat [pixels]
      (by simp) (by simpa using List.ne_nil_of_length_pos (by omega))
    have hfilter :
        ((quantizeLoop numColors numColors.toNat [pixels]).map bucketAvg).filter
            (fun c => 0 < c.count) =
          (quantizeLoop numColors numColors.toNat [pixels]).map bucketAvg := by
      apply List.filter_eq_self.mpr
      intro entry hentry
      rcases List.mem_map.mp hentry with ⟨bucket, hbmem, hbeq⟩
      have hbne := hinv.2.1 bucket hbmem
      have hblen : bucket.length ≠ 0 := by
        intro h
        exact hbne (List.length_eq_zero.mp h)
      rw [← hbeq]
      unfold bucketAvg
      rw [if_neg hblen]
      simpa using Nat.pos_of_ne_zero hblen
    rw [hfilter, List.length_map]
    exact ⟨hinv.1, hinv.2.2 (by simpa using hN)⟩

theorem getPalette_bounds (data : List ℕ) (w h : ℕ) (N : ℤ) (hN : 1 ≤ N) :
    1 ≤ (getPalette data w h N).length ∧ ((getPalette data w h N).length : ℤ) ≤ N :=
  quantizeColors_bounds (collectOpaque data) N hN

end UT

namespace IT

/-- Faithfulness of the integer rounding used by the box averages:
`jsRoundDiv s n` is exactly `Math.round(s / n)`, i.e. `⌊s/n + 1/2⌋`. -/
theorem jsRoundDiv_eq_floor (s n : ℕ) (hn : 0 < n) :
    (jsRoundDiv s n : ℤ) = ⌊(s : ℚ) / (n : ℚ) + 1/2⌋ := by
  have h : ((s : ℚ) / (n : ℚ) + 1/2) = ((2*s+n : ℕ) : ℚ) / ((2*n : ℕ) : ℚ) := by
    have hn' : (n : ℚ) ≠ 0 := by positivity
    push_cast
    field_simp
    ring
  rw [jsRoundDiv, h, Rat.floor_natCast_div_natCast]
  exact Int.ofNat_tdiv _ _

theorem collectPixels_eq_filter :
    ∀ data : List ℕ,
      collectPixels data = (rgbaChunks data).filter (fun p => decide (0 < p.a))
  | [] => rfl
  | [_] => rfl
  | [_, _] => rfl
  | [_, _, _] => rfl
  | r :: g :: b :: a :: rest => by
    simp only [collectPixels, rgbaChunks, List.filter_cons]
    by_cases h : 0 < a
    · simp [h, collectPixels_eq_filter rest]
    · simp [h, collectPixels_eq_filter rest]

theorem quantize_empty (imgd : ImageData) (opts : TraceOptions)
    (h : collectPixels imgd.data = []) : quantize imgd opts = [⟨0, 0, 0, 0⟩] := by
  unfold quantize
  rw [if_pos (by simp [h])]

theorem medianCut_numColors_lt_one (pixels : List Pix) (N : ℤ) (h : N < 1) :
    medianCut pixels N = [⟨128, 128, 128, 255⟩] := by
  unfold medianCut
  rw [if_pos (Or.inr h)]

end IT

namespace UT

theorem collectOpaque_eq_filter :
    ∀ data : List ℕ,
      collectOpaque data =
        ((rgbaChunks data).filter (fun p => decide (128 < p.a))).map
          (fun p => ⟨p.r, p.g, p.b⟩)
  | [] => rfl
  | [_] => rfl
  | [_, _] => rfl
  | [_, _, _] => rfl
  | r :: g :: b :: a :: rest => by
    simp only [collectOpaque, rgbaChunks, List.filter_cons]
    by_cases h : 128 < a
    · simp [h, collectOpaque_eq_filter rest]
    · simp [h, collectOpaque_eq_filter rest]

theorem quantizeColors_degenerate (pixels : List UPix) (N : ℤ)
    (h : pixels = [] ∨ N < 1) : quantizeColors pixels N = [⟨128, 128, 128, 0⟩] := by
  unfold quantizeColors
  rw [if_pos]
  rcases h with h | h
  · exact Or.inl (by simp [h])
  · exact Or.inr h

end UT

namespace IT

theorem createIndexedImage_getD (imgd : ImageData) (palette : List Pix) (i : ℕ)
    (hi : i < imgd.width * imgd.height) :
    (createIndexedImage imgd palette).array.getD i 0 = pixelIndex imgd.data palette i := by
  unfold createIndexedImage
  rw [List.getD_eq_getElem _ _ (by simpa using hi)]
  simp

theorem pixelIndex_neg_one_iff (data : List ℕ) (palette : List Pix) (i : ℕ)
    (hlen : 4 * i + 3 < data.length) :
    (pixelIndex data palette i = -1) ↔ data.getD (4*i+3) 0 < 128 := by
  have hget : data.get? (4*i+3) = some (data.getD (4*i+3) 0) := by
    rw [List.getD_eq_getElem _ _ hlen, List.get?_eq_getElem?]
    exact List.getElem?_eq_getElem hlen
  unfold pixelIndex
  rw [hget]
  by_cases h : data.getD (4*i+3) 0 < 128
  · simp [h]
  · simp only [h, if_false]
    constructor
    · intro hc
      omega
    · intro hc
      exact hc.elim

end IT

namespace UT

theorem toGrayscaleU_length : ∀ l : List ℕ, (toGrayscaleU l).length = l.length
  | [] => rfl
  | [_] => rfl
  | [_, _] => rfl
  | [_, _, _] => rfl
  | _ :: _ :: _ :: _ :: rest => by
    simp [toGrayscaleU, toGrayscaleU_length rest]

theorem toMonochromeU_length :
    ∀ (t : ℚ) (l : List ℕ), (toMonochromeU t l).length = l.length
  | _, [] => rfl
  | _, [_] => rfl
  | _, [_, _] => rfl
  | t, [_, _, _] => by
    unfold toMonochromeU
    split <;> rfl
  | t, _ :: _ :: _ :: _ :: rest => by
    simp [toMonochromeU, toMonochromeU_length t rest]

end UT

/-- C1 (amended): the tracing engine performs no buffer/dimension validation
and has no failure path at all.  For every option record, every declared
canvas size, and every buffer whose byte length differs from
`width × height × 4` — whether or not that length is a multiple of four,
since `new Int16Array(data.length / 4)` truncates a fractional length rather
than throw — `trace` returns a complete markup document: the svg header for
the declared dimensions, some body, and the closing tag. -/
theorem c1_trace_returns_markup_on_mismatch (opts : UT.UOpts) (data : List ℕ)
    (w h : ℕ) (_hmm : data.length ≠ w * h * 4) :
    ∃ body : String,
      UT.trace opts data w h =
        "<svg xmlns=\"http://www.w3.org/2000/svg\" width=\"" ++ toString w ++
        "\" height=\"" ++ toString h ++ "\" viewBox=\"0 0 " ++ toString w ++
        " " ++ toString h ++ "\">\n" ++ "  <title>Traced with ATSVG</title>\n" ++
        body ++ "</svg>" :=
  ⟨_, rfl⟩

/-- Witness for C1: a ten-byte buffer declared 1×1 is a dimension mismatch
(and not even a multiple of four bytes long), yet tracing it returns a
document. -/
theorem c1_witness :
    fxC1WitnessData.length ≠ 1 * 1 * 4 ∧
    ∃ body : String,
      UT.trace fxC1Opts fxC1WitnessData 1 1 =
        "<svg xmlns=\"http://www.w3.org/2000/svg\" width=\"" ++ toString 1 ++
        "\" height=\"" ++ toString 1 ++ "\" viewBox=\"0 0 " ++ toString 1 ++
        " " ++ toString 1 ++ "\">\n" ++ "  <title>Traced with ATSVG</title>\n" ++
        body ++ "</svg>" :=
  ⟨by decide,
   c1_trace_returns_markup_on_mismatch fxC1Opts fxC1WitnessData 1 1 (by decide)⟩

/-- C1 counterexample: an eight-byte buffer declared as 1×1 (so byte length
8 ≠ 4 = width × height × 4) makes `trace` return a complete markup document
rather than raise any error, refuting the claimed fail-fast behavior; and a
ten-byte buffer — a length that is not a multiple of four, where
`new Int16Array(data.length / 4)` truncates 2.5 to 2 instead of throwing —
also yields a complete document, so no length whatsoever is rejected. -/
theorem c1_counterexample :
    (fxC1Data.length ≠ 1 * 1 * 4 ∧ UT.trace fxC1Opts fxC1Data 1 1 = fxC1Svg) ∧
    (fxC1OddData.length % 4 ≠ 0 ∧ UT.trace fxC1Opts fxC1OddData 1 1 = fxC1Svg) := by
  exact ⟨⟨by decide, by rfl⟩, ⟨by decide, by rfl⟩⟩

/-- C2 (amended): in the 2×2 red-column/blue-column scenario with
colorCount 2 the clustering split sorts by the red channel ascending, so the
palette comes out **blue first**: `[{blue, count 2}, {red, count 2}]` (the
claim states red first).  Everything else holds: two non-empty color groups,
each a single 1×2 run rectangle, and the two rectangles tile the 2×2 canvas
with no gaps or overlaps, as the emitted document shows. -/
theorem c2_scenario :
    UT.getPalette fxC2Data 2 2 2 = [⟨0, 0, 255, 2⟩, ⟨255, 0, 0, 2⟩] ∧
    UT.mapToPalette fxC2Data (UT.getPalette fxC2Data 2 2 2) = [1, 0, 1, 0] ∧
    UT.createColorRects [1, 0, 1, 0] 2 2 0 = [⟨1, 0, 1, 2⟩] ∧
    UT.createColorRects [1, 0, 1, 0] 2 2 1 = [⟨0, 0, 1, 2⟩] ∧
    UT.trace fxC2Opts fxC2Data 2 2 = fxC2Svg ∧
    (∀ x y : Fin 2,
      (UT.rectCovers ⟨1, 0, 1, 2⟩ x y ∧ ¬ UT.rectCovers ⟨0, 0, 1, 2⟩ x y) ∨
      (¬ UT.rectCovers ⟨1, 0, 1, 2⟩ x y ∧ UT.rectCovers ⟨0, 0, 1, 2⟩ x y)) := by
  refine ⟨by decide, by decide, by decide, by decide, by rfl, by decide⟩

/-- C2 counterexample: the palette is not `[{red, count 2}, {blue, count 2}]`
as claimed — the clustering split puts blue first. -/
theorem c2_counterexample :
    UT.getPalette fxC2Data 2 2 2 ≠ [⟨255, 0, 0, 2⟩, ⟨0, 0, 255, 2⟩] := by
  decide

/-- C3 (confirmed): for every input pixel buffer and every requested color
count N ≥ 1, the palette produced by the quantizer — `quantize` in
imagetrace.js as well as `getPalette` in the library tracer — has at least 1
and at most N entries. -/
theorem c3_palette_size_bounds :
    (∀ (imgd : IT.ImageData) (opts : IT.TraceOptions), 1 ≤ opts.numberofcolors →
      1 ≤ (IT.quantize imgd opts).length ∧
      ((IT.quantize imgd opts).length : ℤ) ≤ opts.numberofcolors) ∧
    (∀ (data : List ℕ) (w h : ℕ) (N : ℤ), 1 ≤ N →
      1 ≤ (UT.getPalette data w h N).length ∧
      ((UT.getPalette data w h N).length : ℤ) ≤ N) :=
  ⟨fun imgd opts hN => IT.quantize_bounds imgd opts hN,
   fun data w h N hN => UT.getPalette_bounds data w h N hN⟩

/-- Witness for C3 at concrete buffers and counts. -/
theorem c3_witness :
    (1 ≤ fxOpts3.numberofcolors ∧
      1 ≤ (IT.quantize fxC5Img fxOpts3).length ∧
      ((IT.quantize fxC5Img fxOpts3).length : ℤ) ≤ fxOpts3.numberofcolors) ∧
    ((1 : ℤ) ≤ 2 ∧
      1 ≤ (UT.getPalette fxC2Data 2 2 2).length ∧
      ((UT.getPalette fxC2Data 2 2 2).length : ℤ) ≤ 2) :=
  ⟨⟨by decide, (c3_palette_size_bounds.1 fxC5Img fxOpts3 (by decide)).1,
    (c3_palette_size_bounds.1 fxC5Img fxOpts3 (by decide)).2⟩,
   ⟨by decide, (c3_palette_size_bounds.2 fxC2Data 2 2 2 (by decide)).1,
    (c3_palette_size_bounds.2 fxC2Data 2 2 2 (by decide)).2⟩⟩

/-- C4 (amended): when the collected pixel set is empty, `quantize` returns
the single transparent-black entry `{0,0,0,0}` — not the neutral-gray
`{128,128,128,255}` fallback, which sits unreachable inside `medianCut` (the
library variant's fallback is `{128,128,128,count:0}`).  When the requested
count is below 1, `medianCut` returns that gray fallback entry, which is not
the same as behaving as if the count had been clamped to 1. -/
theorem c4_degenerate_behavior :
    (∀ (imgd : IT.ImageData) (opts : IT.TraceOptions),
      IT.collectPixels imgd.data = [] → IT.quantize imgd opts = [⟨0, 0, 0, 0⟩]) ∧
    (∀ (pixels : List IT.Pix) (N : ℤ), N < 1 →
      IT.medianCut pixels N = [⟨128, 128, 128, 255⟩]) ∧
    (∀ (pixels : List UT.UPix) (N : ℤ), pixels = [] ∨ N < 1 →
      UT.quantizeColors pixels N = [⟨128, 128, 128, 0⟩]) :=
  ⟨fun imgd opts h => IT.quantize_empty imgd opts h,
   fun pixels N h => IT.medianCut_numColors_lt_one pixels N h,
   fun pixels N h => UT.quantizeColors_degenerate pixels N h⟩

/-- Witness for C4 at concrete degenerate inputs. -/
theorem c4_witness :
    IT.quantize fxTransparentImg fxOpts16 = [⟨0, 0, 0, 0⟩] ∧
    IT.medianCut [fxRed] 0 = [⟨128, 128, 128, 255⟩] ∧
    UT.quantizeColors [] 5 = [⟨128, 128, 128, 0⟩] :=
  ⟨c4_degenerate_behavior.1 fxTransparentImg fxOpts16 (by decide),
   c4_degenerate_behavior.2.1 [fxRed] 0 (by decide),
   c4_degenerate_behavior.2.2 [] 5 (Or.inl rfl)⟩

/-- C4 counterexample: a fully transparent 1×1 image yields the
transparent-black entry, not a neutral-gray one; and `medianCut` at count 0
disagrees with `medianCut` at count 1 on a single red pixel, so a count below
1 is not handled "as if clamped to 1". -/
theorem c4_counterexample :
    IT.quantize fxTransparentImg fxOpts16 = [⟨0, 0, 0, 0⟩] ∧
    (⟨0, 0, 0, 0⟩ : IT.Pix) ≠ ⟨128, 128, 128, 255⟩ ∧
    IT.medianCut [fxRed] 0 ≠ IT.medianCut [fxRed] 1 := by
  refine ⟨by decide, by decide, by decide⟩

/-- C5 (amended): the pixel multiset `quantize` clusters is exactly the set
of pixels with alpha strictly above **zero** — a strict superset of the
indexer's non-transparent set (alpha ≥ 128): pixels with alpha in 1..127
contribute to palette entries yet are indexed −1.  The library variant's
`getPalette` instead collects alpha strictly above 128, which misses the
alpha = 128 pixels its own indexer treats as opaque. -/
theorem c5_quantizer_pixel_set :
    (∀ data : List ℕ,
      IT.collectPixels data = (rgbaChunks data).filter (fun p => decide (0 < p.a))) ∧
    (∀ data : List ℕ,
      UT.collectOpaque data =
        ((rgbaChunks data).filter (fun p => decide (128 < p.a))).map
          (fun p => ⟨p.r, p.g, p.b⟩)) ∧
    (∀ (imgd : IT.ImageData) (palette : List IT.Pix) (i : ℕ),
      i < imgd.width * imgd.height → 4 * i + 3 < imgd.data.length →
      (((IT.createIndexedImage imgd palette).array.getD i 0 = -1) ↔
        imgd.data.getD (4*i+3) 0 < 128)) := by
  refine ⟨IT.collectPixels_eq_filter, UT.collectOpaque_eq_filter, ?_⟩
  intro imgd palette i hi hlen
  rw [IT.createIndexedImage_getD imgd palette i hi]
  exact IT.pixelIndex_neg_one_iff imgd.data palette i hlen

/-- Witness for C5 at the alpha-50 fixture. -/
theorem c5_witness :
    IT.collectPixels fxC5Img.data =
      (rgbaChunks fxC5Img.data).filter (fun p => decide (0 < p.a)) ∧
    (((IT.createIndexedImage fxC5Img [fxRed]).array.getD 0 0 = -1) ↔
      fxC5Img.data.getD 3 0 < 128) :=
  ⟨c5_quantizer_pixel_set.1 fxC5Img.data,
   c5_quantizer_pixel_set.2.2 fxC5Img [fxRed] 0 (by decide) (by decide)⟩

/-- C5 counterexample: a pixel with alpha 50 is collected by the quantizer
(and here becomes the palette's sole entry) even though the indexer marks it
transparent and the above-128-cutoff opaque set is empty — the clustered
multiset is not the opaque pixel set. -/
theorem c5_counterexample :
    IT.quantize fxC5Img fxOpts16 = [⟨10, 20, 30, 50⟩] ∧
    (IT.createIndexedImage fxC5Img (IT.quantize fxC5Img fxOpts16)).array = [-1] ∧
    (rgbaChunks fxC5Img.data).filter (fun p => decide (128 ≤ p.a)) = [] := by
  refine ⟨by decide, by decide, by decide⟩

/-- C6 (amended): when the requested count exceeds the number of distinct
colors, the splitting loop still terminates (the embedding is total and
`IT.medianCutLoop_fuel_succ` shows its fuel is irrelevant past
`numColors - boxes.length`), and the palette has at least one and at most
`min N (number of pixels)` entries — but it can have **more** entries than
there are distinct colors, because median-cut's midpoint split can place
equal colors in different buckets. -/
theorem c6_terminates_with_bounded_palette (pixels : List IT.Pix) (N : ℕ)
    (hN : 1 ≤ N) (hp : pixels ≠ []) (_hd : distinctColors pixels < N) :
    1 ≤ (IT.medianCut pixels (N : ℤ)).length ∧
    (IT.medianCut pixels (N : ℤ)).length ≤ min N pixels.length := by
  have h := IT.medianCut_bounds pixels (N : ℤ) hp (by exact_mod_cast hN)
  exact ⟨h.1, le_min (by exact_mod_cast h.2.1) h.2.2⟩

/-- Witness for C6 at the five-pixel two-color fixture. -/
theorem c6_witness :
    1 ≤ 16 ∧ fxC6Pixels ≠ [] ∧ distinctColors fxC6Pixels < 16 ∧
    1 ≤ (IT.medianCut fxC6Pixels (16 : ℤ)).length ∧
    (IT.medianCut fxC6Pixels (16 : ℤ)).length ≤ min 16 fxC6Pixels.length :=
  ⟨by decide, by decide, by decide,
   (c6_terminates_with_bounded_palette fxC6Pixels 16 (by decide) (by decide) (by decide)).1,
   (c6_terminates_with_bounded_palette fxC6Pixels 16 (by decide) (by decide) (by decide)).2⟩

/-- C6 counterexample: five pixels in exactly two distinct colors, requested
count 16 — the loop stops with three buckets (blue/blue, blue, red/red), so
the palette has three entries, not "exactly as many as distinct colors". -/
theorem c6_counterexample :
    distinctColors fxC6Pixels = 2 ∧ (IT.medianCut fxC6Pixels 16).length = 3 := by
  refine ⟨by decide, by decide⟩

namespace IT

theorem nearestIdx_lt (palette : List Pix) (r g b : ℕ) (hp : palette ≠ []) :
    nearestIdx palette r g b < palette.length := by
  unfold nearestIdx
  have main : ∀ (l : List (ℕ × Pix)) (acc : Option ℤ × ℕ),
      (∀ jp ∈ l, jp.1 < palette.length) → acc.2 < palette.length →
      (l.foldl (fun acc jp =>
        let dist := ((r : ℤ) - jp.2.r)^2 + ((g : ℤ) - jp.2.g)^2 + ((b : ℤ) - jp.2.b)^2
        match acc.1 with
        | none => (some dist, jp.1)
        | some m => if dist < m then (some dist, jp.1) else acc) acc).2 < palette.length := by
    intro l
    induction l with
    | nil =>
      intro acc _ hacc
      exact hacc
    | cons jp rest ih =>
      intro acc hmem hacc
      rw [List.foldl_cons]
      obtain ⟨o, idx⟩ := acc
      cases o with
      | none =>
        exact ih _ (fun x hx => hmem x (List.mem_cons_of_mem _ hx))
          (hmem jp (List.mem_cons_self _ _))
      | some m =>
        apply ih _ (fun x hx => hmem x (List.mem_cons_of_mem _ hx))
        simp only []
        split
        · exact hmem jp (List.mem_cons_self _ _)
        · exact hacc
  exact main palette.enum (none, 0) (fun jp hjp => List.fst_lt_of_mem_enum hjp)
    (List.length_pos.mpr hp)

theorem pixelIndex_valid (data : List ℕ) (palette : List Pix) (i : ℕ)
    (hp : palette ≠ []) :
    pixelIndex data palette i = -1 ∨
      (0 ≤ pixelIndex data palette i ∧ pixelIndex data palette i < palette.length) := by
  cases hget : data.get? (4*i + 3) with
  | none =>
    have hred : pixelIndex data palette i = 0 := by
      unfold pixelIndex
      rw [hget]
    rw [hred]
    right
    refine ⟨le_refl 0, ?_⟩
    exact_mod_cast List.length_pos.mpr hp
  | some a =>
    have hred : pixelIndex data palette i =
        if a < 128 then -1
        else (nearestIdx palette (data.getD (4*i) 0) (data.getD (4*i+1) 0)
          (data.getD (4*i+2) 0) : ℤ) := by
      unfold pixelIndex
      rw [hget]
    rw [hred]
    by_cases h : a < 128
    · left
      rw [if_pos h]
    · right
      rw [if_neg h]
      exact ⟨Int.natCast_nonneg _, by exact_mod_cast nearestIdx_lt palette _ _ _ hp⟩

theorem createIndexedImage_length (imgd : ImageData) (palette : List Pix) :
    (createIndexedImage imgd palette).array.length = imgd.width * imgd.height := by
  unfold createIndexedImage
  simp

theorem filterMap_if_eq_map_filter {α β : Type} (keep : α → Bool) (g : α → β)
    (l : List α) :
    l.filterMap (fun c => if keep c then some (g c) else none) =
      (l.filter keep).map g := by
  induction l with
  | nil => rfl
  | cons x xs ih =>
    by_cases h : keep x
    · simp [List.filterMap_cons, List.filter_cons, h, ih]
    · simp [List.filterMap_cons, List.filter_cons, h, ih]

theorem layerSeparation_eq (indexed : IndexedImage) (palette : List Pix) :
    layerSeparation indexed palette =
      ((List.range palette.length).filter
        (fun (c : ℕ) => indexed.array.contains (c : ℤ))).map
        (fun (c : ℕ) =>
          ⟨indexed.array.map (fun v => if v = (c : ℤ) then (1 : ℕ) else 0),
           indexed.width, indexed.height, palette.getD c ⟨0, 0, 0, 0⟩⟩) :=
  filterMap_if_eq_map_filter _ _ _

theorem layerSeparation_masks_nonempty (indexed : IndexedImage) (palette : List Pix) :
    ∀ L ∈ layerSeparation indexed palette, L.array.contains 1 = true := by
  intro L hL
  rw [layerSeparation_eq] at hL
  obtain ⟨c, hc, rfl⟩ := List.mem_map.mp hL
  have hkeep := (List.mem_filter.mp hc).2
  have hmem : (c : ℤ) ∈ indexed.array := List.elem_iff.mp hkeep
  apply List.elem_iff.mpr
  exact List.mem_map.mpr ⟨(c : ℤ), hmem, by simp⟩

end IT

namespace IT

theorem layerSeparation_countP (imgd : ImageData) (palette : List Pix) (i : ℕ)
    (hi : i < imgd.width * imgd.height) (hp : palette ≠ []) :
    (layerSeparation (createIndexedImage imgd palette) palette).countP
        (fun L => decide (L.array.getD i 0 = 1)) =
      if (createIndexedImage imgd palette).array.getD i 0 = -1 then 0 else 1 := by
  have hilen : i < (createIndexedImage imgd palette).array.length := by
    rw [createIndexedImage_length]
    exact hi
  rw [layerSeparation_eq, List.countP_map]
  have hmask : ∀ c : ℕ,
      (((createIndexedImage imgd palette).array.map
          (fun v => if v = (c : ℤ) then (1 : ℕ) else 0)).getD i 0 = 1) ↔
        (createIndexedImage imgd palette).array.getD i 0 = (c : ℤ) := by
    intro c
    rw [List.getD_eq_getElem _ _ (by simpa using hilen), List.getElem_map,
      List.getD_eq_getElem _ _ hilen]
    by_cases h : (createIndexedImage imgd palette).array[i] = (c : ℤ)
    · simp [h]
    · simp [h]
  rw [List.countP_congr (q := fun c : ℕ =>
      decide ((createIndexedImage imgd palette).array.getD i 0 = (c : ℤ)))
    (fun c _ => by simpa using hmask c)]
  by_cases hv : (createIndexedImage imgd palette).array.getD i 0 = -1
  · rw [if_pos hv]
    apply List.countP_eq_zero.mpr
    intro c _
    simp only [hv, decide_eq_true_eq]
    omega
  · rw [if_neg hv]
    have hvalid := pixelIndex_valid imgd.data palette i hp
    have hgetd : (createIndexedImage imgd palette).array.getD i 0 =
        pixelIndex imgd.data palette i := createIndexedImage_getD imgd palette i hi
    rw [← hgetd] at hvalid
    rcases hvalid with hvalid | ⟨hge, hlt⟩
    · exact absurd hvalid hv
    · obtain ⟨n, hn⟩ : ∃ n : ℕ, (createIndexedImage imgd palette).array.getD i 0 = (n : ℤ) :=
        ⟨((createIndexedImage imgd palette).array.getD i 0).toNat,
          (Int.toNat_of_nonneg hge).symm⟩
      have hnlt : n < palette.length := by
        rw [hn] at hlt
        exact_mod_cast hlt
      have hmem : ((n : ℤ)) ∈ (createIndexedImage imgd palette).array := by
        rw [← hn, List.getD_eq_getElem _ _ hilen]
        exact List.getElem_mem hilen
      have hcount : (((List.range palette.length).filter
          (fun (c : ℕ) => (createIndexedImage imgd palette).array.contains (c : ℤ))).countP
            (fun c : ℕ => decide ((createIndexedImage imgd palette).array.getD i 0 = (c : ℤ))))
          = (((List.range palette.length).filter
            (fun (c : ℕ) => (createIndexedImage imgd palette).array.contains (c : ℤ))).count n) := by
        apply List.countP_congr
        intro c _
        simp only [hn, decide_eq_true_eq, beq_iff_eq]
        constructor
        · intro h
          exact_mod_cast h.symm
        · intro h
          exact_mod_cast congrArg (fun x : ℕ => (x : ℤ)) h.symm
      rw [hcount]
      apply List.count_eq_one_of_mem (List.Nodup.filter _ (List.nodup_range _))
      apply List.mem_filter.mpr
      exact ⟨List.mem_range.mpr hnlt, List.elem_iff.mpr hmem⟩

end IT

/-- C7 (amended): for every input buffer and every **nonempty** palette,
every pixel's indexed value is either −1 or a valid palette index, the layer
masks together with the transparent set partition the pixel grid (each cell
lies in exactly one of {transparent set, layer₀, layer₁, …}), and no emitted
layer has an empty mask.  The nonemptiness hypothesis is forced: with an
empty palette the indexer stores its initial `colorIdx = 0`, which indexes
nothing (see the counterexample); every palette the pipeline itself produces
is nonempty. -/
theorem c7_index_partition (imgd : IT.ImageData) (palette : List IT.Pix)
    (hp : palette ≠ []) :
    (∀ i, i < imgd.width * imgd.height →
      ((IT.createIndexedImage imgd palette).array.getD i 0 = -1 ∨
        (0 ≤ (IT.createIndexedImage imgd palette).array.getD i 0 ∧
          (IT.createIndexedImage imgd palette).array.getD i 0 < palette.length))) ∧
    (∀ i, i < imgd.width * imgd.height →
      (IT.layerSeparation (IT.createIndexedImage imgd palette) palette).countP
          (fun L => decide (L.array.getD i 0 = 1)) =
        if (IT.createIndexedImage imgd palette).array.getD i 0 = -1 then 0 else 1) ∧
    (∀ L ∈ IT.layerSeparation (IT.createIndexedImage imgd palette) palette,
      L.array.contains 1 = true) := by
  refine ⟨?_, ?_, IT.layerSeparation_masks_nonempty _ _⟩
  · intro i hi
    rw [IT.createIndexedImage_getD imgd palette i hi]
    exact IT.pixelIndex_valid imgd.data palette i hp
  · intro i hi
    exact IT.layerSeparation_countP imgd palette i hi hp

/-- Witness for C7 on a 1×1 opaque image with a one-entry palette. -/
theorem c7_witness :
    (((IT.createIndexedImage fxOpaqueImg [fxRed]).array.getD 0 0 = -1 ∨
      (0 ≤ (IT.createIndexedImage fxOpaqueImg [fxRed]).array.getD 0 0 ∧
        (IT.createIndexedImage fxOpaqueImg [fxRed]).array.getD 0 0 <
          ([fxRed] : List IT.Pix).length))) ∧
    ((IT.layerSeparation (IT.createIndexedImage fxOpaqueImg [fxRed]) [fxRed]).countP
        (fun L => decide (L.array.getD 0 0 = 1)) =
      if (IT.createIndexedImage fxOpaqueImg [fxRed]).array.getD 0 0 = -1 then 0 else 1) ∧
    (IT.Layer.mk [1] 1 1 fxRed).array.contains 1 = true :=
  ⟨(c7_index_partition fxOpaqueImg [fxRed] (by decide)).1 0 (by decide),
   (c7_index_partition fxOpaqueImg [fxRed] (by decide)).2.1 0 (by decide),
   (c7_index_partition fxOpaqueImg [fxRed] (by decide)).2.2 ⟨[1], 1, 1, fxRed⟩ (by decide)⟩

/-- C7 counterexample: with an empty palette (the one case the pipeline never
produces), an opaque pixel is indexed 0 — neither −1 nor a valid index — and
belongs to no layer, so the partition statement fails as universally
quantified over "every palette". -/
theorem c7_counterexample :
    (IT.createIndexedImage fxOpaqueImg []).array = [0] ∧
    ¬((IT.createIndexedImage fxOpaqueImg []).array.getD 0 0 = -1 ∨
      (IT.createIndexedImage fxOpaqueImg []).array.getD 0 0 <
        (([] : List IT.Pix)).length) ∧
    IT.layerSeparation (IT.createIndexedImage fxOpaqueImg []) [] = [] := by
  refine ⟨by decide, by decide, by decide⟩

namespace IT

theorem head?_take (l : List Pt) (k : ℕ) (hk : 1 ≤ k) :
    (l.take k).head? = l.head? := by
  cases l with
  | nil => simp
  | cons a t =>
    cases k with
    | zero => omega
    | succ k => simp

theorem head?_dropLast (l : List Pt) (hl : 2 ≤ l.length) :
    l.dropLast.head? = l.head? := by
  match l, hl with
  | a :: b :: t, _ => simp

theorem getLast?_drop (l : List Pt) : ∀ (n : ℕ), n < l.length →
    (l.drop n).getLast? = l.getLast? := by
  induction l with
  | nil =>
    intro n h
    simp at h
  | cons a t ih =>
    intro n h
    cases n with
    | zero => simp
    | succ n =>
      rw [List.drop_succ_cons, ih n (by simpa using h)]
      match t, h with
      | b :: t2, _ => exact List.getLast?_cons_cons.symm

end IT

namespace IT

theorem head?_eq_getD (l : List Pt) (hl : l ≠ []) :
    l.head? = some (l.getD 0 ⟨0, 0⟩) := by
  cases l with
  | nil => exact absurd rfl hl
  | cons a t => rfl

theorem getLast?_eq_getD (l : List Pt) (hl : l ≠ []) :
    l.getLast? = some (l.getD (l.length - 1) ⟨0, 0⟩) := by
  have hlen : l.length - 1 < l.length := by
    have := List.length_pos.mpr hl
    omega
  rw [List.getLast?_eq_getElem? l, List.getElem?_eq_getElem hlen,
    List.getD_eq_getElem _ _ hlen]

/-- The scan of `simplifyPath` either never updates (both components still 0)
or ends at a strictly positive maximum attained at an interior index. -/
theorem maxPerp_cases (points : List Pt) :
    maxPerp points = (0, 0) ∨
      (0 < (maxPerp points).1 ∧ 1 ≤ (maxPerp points).2 ∧
        (maxPerp points).2 ≤ points.length - 2) := by
  unfold maxPerp
  have main : ∀ (l : List ℕ) (acc : ℝ × ℕ),
      (∀ i ∈ l, 1 ≤ i ∧ i ≤ points.length - 2) →
      (acc = (0, 0) ∨ (0 < acc.1 ∧ 1 ≤ acc.2 ∧ acc.2 ≤ points.length - 2)) →
      (l.foldl (fun acc i =>
          let dist := perpendicularDistance (points.getD i ⟨0, 0⟩)
            (points.getD 0 ⟨0, 0⟩) (points.getD (points.length - 1) ⟨0, 0⟩)
          if acc.1 < dist then (dist, i) else acc) acc = (0, 0) ∨
        (0 < (l.foldl (fun acc i =>
          let dist := perpendicularDistance (points.getD i ⟨0, 0⟩)
            (points.getD 0 ⟨0, 0⟩) (points.getD (points.length - 1) ⟨0, 0⟩)
          if acc.1 < dist then (dist, i) else acc) acc).1 ∧
          1 ≤ (l.foldl (fun acc i =>
          let dist := perpendicularDistance (points.getD i ⟨0, 0⟩)
            (points.getD 0 ⟨0, 0⟩) (points.getD (points.length - 1) ⟨0, 0⟩)
          if acc.1 < dist then (dist, i) else acc) acc).2 ∧
          (l.foldl (fun acc i =>
          let dist := perpendicularDistance (points.getD i ⟨0, 0⟩)
            (points.getD 0 ⟨0, 0⟩) (points.getD (points.length - 1) ⟨0, 0⟩)
          if acc.1 < dist then (dist, i) else acc) acc).2 ≤ points.length - 2)) := by
    intro l
    induction l with
    | nil =>
      intro acc _ hacc
      exact hacc
    | cons i rest ih =>
      intro acc hmem hacc
      rw [List.foldl_cons]
      apply ih _ (fun j hj => hmem j (List.mem_cons_of_mem _ hj))
      have hge : (0 : ℝ) ≤ acc.1 := by
        rcases hacc with h | h
        · rw [h]
        · exact le_of_lt h.1
      by_cases hup : acc.1 < perpendicularDistance (points.getD i ⟨0, 0⟩)
          (points.getD 0 ⟨0, 0⟩) (points.getD (points.length - 1) ⟨0, 0⟩)
      · right
        rw [if_pos hup]
        exact ⟨lt_of_le_of_lt hge hup, (hmem i (List.mem_cons_self _ _)).1,
          (hmem i (List.mem_cons_self _ _)).2⟩
      · rw [if_neg hup]
        exact hacc
  apply main
  · intro i hi
    have := List.mem_range'_1.mp hi
    omega
  · exact Or.inl rfl

end IT

namespace IT

theorem head?_append_left (l l2 : List Pt) (hl : l ≠ []) :
    (l ++ l2).head? = l.head? := by
  cases l with
  | nil => exact absurd rfl hl
  | cons a t => rfl

theorem simplifyPathF_eq (tolerance : ℝ) (fuel : ℕ) (points : List Pt) :
    simplifyPathF tolerance fuel points =
      if points.length ≤ 2 then some points
      else
        match fuel with
        | 0 => none
        | fuel + 1 =>
          if tolerance < (maxPerp points).1 then
            match simplifyPathF tolerance fuel (points.take ((maxPerp points).2 + 1)),
                simplifyPathF tolerance fuel (points.drop (maxPerp points).2) with
            | some left, some right => some (left.dropLast ++ right)
            | _, _ => none
          else some [points.getD 0 ⟨0, 0⟩, points.getD (points.length - 1) ⟨0, 0⟩] := by
  cases fuel <;> rfl

theorem simplifyPathF_zero (tolerance : ℝ) (points : List Pt) :
    simplifyPathF tolerance 0 points =
      if points.length ≤ 2 then some points else none := rfl

theorem simplifyPathF_succ (tolerance : ℝ) (fuel : ℕ) (points : List Pt) :
    simplifyPathF tolerance (fuel + 1) points =
      if points.length ≤ 2 then some points
      else
        if tolerance < (maxPerp points).1 then
          match simplifyPathF tolerance fuel (points.take ((maxPerp points).2 + 1)),
              simplifyPathF tolerance fuel (points.drop (maxPerp points).2) with
          | some left, some right => some (left.dropLast ++ right)
          | _, _ => none
        else some [points.getD 0 ⟨0, 0⟩, points.getD (points.length - 1) ⟨0, 0⟩] := rfl

/-- The simplifier returns for every nonnegative tolerance once the fuel
covers the path length, and its result never gains points, keeps both
endpoints, and leaves paths of at most two points unchanged. -/
theorem simplifyPathF_spec (tolerance : ℝ) (htol : 0 ≤ tolerance) :
    ∀ (fuel : ℕ) (points : List Pt), points.length ≤ fuel + 2 →
      ∃ res, simplifyPathF tolerance fuel points = some res ∧
        res.length ≤ points.length ∧
        (2 ≤ points.length → 2 ≤ res.length) ∧
        res.head? = points.head? ∧
        res.getLast? = points.getLast? ∧
        (points.length ≤ 2 → res = points) := by
  intro fuel
  induction fuel with
  | zero =>
    intro points hlen
    refine ⟨points, ?_, le_refl _, fun h => h, rfl, rfl, fun _ => rfl⟩
    rw [simplifyPathF_zero, if_pos (by omega)]
  | succ fuel ih =>
    intro points hlen
    by_cases hsmall : points.length ≤ 2
    · refine ⟨points, ?_, le_refl _, fun h => h, rfl, rfl, fun _ => rfl⟩
      rw [simplifyPathF_succ, if_pos hsmall]
    · push_neg at hsmall
      by_cases htolLt : tolerance < (maxPerp points).1
      · rcases maxPerp_cases points with hmp | ⟨_, h1, h2⟩
        · rw [hmp] at htolLt
          exact absurd (lt_of_le_of_lt htol htolLt) (lt_irrefl 0)
        · obtain ⟨left, hleval, hllen, hl2, hlhead, hllast, _⟩ :=
            ih (points.take ((maxPerp points).2 + 1))
              (by rw [List.length_take]; omega)
          obtain ⟨right, hreval, hrlen, hr2, hrhead, hrlast, _⟩ :=
            ih (points.drop (maxPerp points).2)
              (by rw [List.length_drop]; omega)
          have htl : (points.take ((maxPerp points).2 + 1)).length =
              (maxPerp points).2 + 1 := by
            rw [List.length_take]; omega
          have hdl : (points.drop (maxPerp points).2).length =
              points.length - (maxPerp points).2 := List.length_drop _ _
          have hl2' : 2 ≤ left.length := hl2 (by omega)
          have hr2' : 2 ≤ right.length := hr2 (by omega)
          have hdln : left.dropLast ≠ [] := by
            apply List.ne_nil_of_length_pos
            rw [List.length_dropLast]
            omega
          refine ⟨left.dropLast ++ right, ?_, ?_, ?_, ?_, ?_,
            fun h => absurd h (by omega)⟩
          · rw [simplifyPathF_succ, if_neg (by omega), if_pos htolLt, hleval, hreval]
          · rw [List.length_append, List.length_dropLast]
            omega
          · intro _
            rw [List.length_append]
            omega
          · rw [head?_append_left _ _ hdln, head?_dropLast left hl2', hlhead,
              head?_take _ _ (by omega)]
          · rw [List.getLast?_append_of_ne_nil _ (List.ne_nil_of_length_pos (by omega)),
              hrlast, getLast?_drop points _ (by omega)]
      · refine ⟨[points.getD 0 ⟨0, 0⟩, points.getD (points.length - 1) ⟨0, 0⟩], ?_,
          ?_, ?_, ?_, ?_, fun h => absurd h (by omega)⟩
        · rw [simplifyPathF_succ, if_neg (by omega), if_neg htolLt]
        · simp only [List.length_cons, List.length_nil]
          omega
        · intro _
          simp
        · rw [head?_eq_getD points (List.ne_nil_of_length_pos (by omega))]
          rfl
        · rw [getLast?_eq_getD points (List.ne_nil_of_length_pos (by omega))]
          rfl

end IT

namespace IT

theorem perpDist_degenerate :
    perpendicularDistance (⟨0, 0⟩ : Pt) ⟨0, 0⟩ ⟨0, 0⟩ = 0 := by
  simp only [perpendicularDistance]
  rw [if_pos (by norm_num)]
  norm_num

theorem maxPerp_degenerate : maxPerp fxDegeneratePath = (0, 0) := by
  have hr : List.range' 1 (fxDegeneratePath.length - 2) = [1] := rfl
  unfold maxPerp
  rw [hr, List.foldl_cons, List.foldl_nil]
  simp only [show fxDegeneratePath.getD 1 ⟨0, 0⟩ = ⟨0, 0⟩ from rfl,
    show fxDegeneratePath.getD 0 ⟨0, 0⟩ = ⟨0, 0⟩ from rfl,
    show fxDegeneratePath.getD (fxDegeneratePath.length - 1) ⟨0, 0⟩ = ⟨0, 0⟩ from rfl,
    perpDist_degenerate]
  rw [if_neg (lt_irrefl 0)]

theorem simplify_degenerate_diverges :
    ∀ fuel, simplifyPathF (-1) fuel fxDegeneratePath = none := by
  intro fuel
  induction fuel with
  | zero =>
    rw [simplifyPathF_zero, if_neg (by norm_num [fxDegeneratePath])]
  | succ fuel ih =>
    rw [simplifyPathF_succ, if_neg (by norm_num [fxDegeneratePath]),
      maxPerp_degenerate]
    rw [if_pos (show (-1 : ℝ) < 0 by norm_num)]
    have hone : simplifyPathF (-1 : ℝ) fuel [(⟨0, 0⟩ : Pt)] = some [⟨0, 0⟩] := by
      rw [simplifyPathF_eq, if_pos (by norm_num)]
    rw [show fxDegeneratePath.take (0 + 1) = [(⟨0, 0⟩ : Pt)] from rfl,
      show fxDegeneratePath.drop 0 = fxDegeneratePath from rfl, hone, ih]

end IT

/-- C8 (amended): for every path and every **nonnegative** tolerance the
simplifier returns, never increases the point count, preserves the first and
last point, and returns paths of length ≤ 2 unchanged.  Nonnegativity is
forced by the counterexample: with a negative tolerance the recursion can
re-enter itself on the whole path and never return.  (The library module's
variant squares its tolerance first, so it terminates for every tolerance.) -/
theorem c8_simplify_preserves_endpoints (points : List IT.Pt) (tolerance : ℝ)
    (htol : 0 ≤ tolerance) :
    ∃ res, IT.simplifyPath points tolerance = some res ∧
      res.length ≤ points.length ∧
      res.head? = points.head? ∧
      res.getLast? = points.getLast? ∧
      (points.length ≤ 2 → res = points) := by
  obtain ⟨res, h1, h2, _, h4, h5, h6⟩ :=
    IT.simplifyPathF_spec tolerance htol points.length points (by omega)
  exact ⟨res, h1, h2, h4, h5, h6⟩

/-- Witness for C8 on a concrete three-point path at tolerance 1. -/
theorem c8_witness :
    (0 : ℝ) ≤ 1 ∧
    (∃ res, IT.simplifyPath fxC8Path 1 = some res ∧
      res.length ≤ fxC8Path.length ∧
      res.head? = fxC8Path.head? ∧
      res.getLast? = fxC8Path.getLast? ∧
      (fxC8Path.length ≤ 2 → res = fxC8Path)) :=
  ⟨by norm_num, c8_simplify_preserves_endpoints fxC8Path 1 (by norm_num)⟩

/-- C8 counterexample: at tolerance −1 on three coincident points the maximum
perpendicular distance is 0 > −1 with pivot index 0, so the JS function
recurses on `points.slice(0)` — the whole path — forever: no recursion depth
returns (`rdpDiverges`), the call stack overflows, and no simplified path is
returned at all, refuting "for every tolerance value". -/
theorem c8_counterexample :
    IT.rdpDiverges fxDegeneratePath (-1) ∧
    IT.simplifyPath fxDegeneratePath (-1) = none :=
  ⟨IT.simplify_degenerate_diverges, IT.simplify_degenerate_diverges _⟩

namespace IT

/-- At an isolated pixel the right-turn search finds no neighbor: all four
candidates (for the initial heading 0 they are up, right, down, left) are
unset. -/
theorem findNext_isolated (layer : Layer) (x y : ℤ)
    (hl : getPixel layer (x-1) y = 0) (hr : getPixel layer (x+1) y = 0)
    (hu : getPixel layer x (y-1) = 0) (hd : getPixel layer x (y+1) = 0) :
    findNext layer x y 0 = none := by
  unfold findNext
  simp only [List.findSome?_cons, List.findSome?_nil]
  rw [if_neg (by
      simp only [show (0 + 3 + 0) % 4 = 3 from rfl, dxv, dyv]
      intro hcon
      rw [show ([1, 0, -1, 0] : List ℤ).getD 3 0 = 0 from rfl,
        show ([0, 1, 0, -1] : List ℤ).getD 3 0 = -1 from rfl] at hcon
      rw [show x + 0 = x from by ring, show y + -1 = y - 1 from by ring] at hcon
      exact hcon.1 hu)]
  rw [if_neg (by
      simp only [show (0 + 3 + 1) % 4 = 0 from rfl, dxv, dyv]
      intro hcon
      rw [show ([1, 0, -1, 0] : List ℤ).getD 0 0 = 1 from rfl,
        show ([0, 1, 0, -1] : List ℤ).getD 0 0 = 0 from rfl] at hcon
      rw [show y + 0 = y from by ring] at hcon
      exact hcon.1 hr)]
  rw [if_neg (by
      simp only [show (0 + 3 + 2) % 4 = 1 from rfl, dxv, dyv]
      intro hcon
      rw [show ([1, 0, -1, 0] : List ℤ).getD 1 0 = 0 from rfl,
        show ([0, 1, 0, -1] : List ℤ).getD 1 0 = 1 from rfl] at hcon
      rw [show x + 0 = x from by ring] at hcon
      exact hcon.1 hd)]
  rw [if_neg (by
      simp only [show (0 + 3 + 3) % 4 = 2 from rfl, dxv, dyv]
      intro hcon
      rw [show ([1, 0, -1, 0] : List ℤ).getD 2 0 = -1 from rfl,
        show ([0, 1, 0, -1] : List ℤ).getD 2 0 = 0 from rfl] at hcon
      rw [show x + -1 = x - 1 from by ring, show y + 0 = y from by ring] at hcon
      exact hcon.1 hl)]

end IT

namespace IT

/-- The boundary walk starting (with the initial heading 0 used by
`tracePaths`) at an isolated set pixel pushes just that pixel and stops. -/
theorem walkAux_isolated (layer : Layer) (x y : ℤ) (fuel : ℕ)
    (path : List Pt) (visited : List Bool)
    (hl : getPixel layer (x-1) y = 0) (hr : getPixel layer (x+1) y = 0)
    (hu : getPixel layer x (y-1) = 0) (hd : getPixel layer x (y+1) = 0) :
    (walkAux layer x y fuel x y 0 path visited).1 = path ++ [⟨(x : ℚ), (y : ℚ)⟩] := by
  unfold walkAux
  rw [findNext_isolated layer x y hl hr hu hd]

end IT

/-- C10 (confirmed): an isolated set pixel contributes no path element to the
document, for every configuration including `pathomit ≤ 1`: (1) the boundary
walk from such a pixel produces the single-point path `[(x, y)]`; (2) the
serializer returns the empty string for every path whose simplified form has
fewer than two points (and `generateSvg` drops empty strings); and on the
concrete 3×3 layer with one isolated center pixel and `pathomit = 1`,
`tracePaths` keeps the one-point path, which then serializes to `""`. -/
theorem c10_isolated_pixel_dropped :
    (∀ (layer : IT.Layer) (x y : ℤ) (fuel : ℕ) (path : List IT.Pt)
      (visited : List Bool),
      IT.getPixel layer (x-1) y = 0 → IT.getPixel layer (x+1) y = 0 →
      IT.getPixel layer x (y-1) = 0 → IT.getPixel layer x (y+1) = 0 →
      (IT.walkAux layer x y fuel x y 0 path visited).1 =
        path ++ [⟨(x : ℚ), (y : ℚ)⟩]) ∧
    (∀ (path : List IT.Pt) (opts : IT.TraceOptions) (s : List IT.Pt),
      IT.simplifyPath path opts.ltres = some s → s.length < 2 →
      IT.pathToSvg path opts = some "") ∧
    IT.tracePaths fxC10Layer fxC10Opts = [[⟨1, 1⟩]] ∧
    IT.pathToSvg [⟨1, 1⟩] fxC10Opts = some "" := by
  refine ⟨fun layer x y fuel path visited hl hr hu hd =>
    IT.walkAux_isolated layer x y fuel path visited hl hr hu hd, ?_, ?_, ?_⟩
  · intro path opts s hsimp hslen
    unfold IT.pathToSvg
    by_cases hp : path.length = 0
    · rw [if_pos hp]
    · rw [if_neg hp]
      simp only [hsimp]
      rw [if_pos hslen]
  · decide
  · unfold IT.pathToSvg
    rw [if_neg (by norm_num)]
    simp only [show IT.simplifyPath [(⟨1, 1⟩ : IT.Pt)] fxC10Opts.ltres =
      some [⟨1, 1⟩] from rfl]
    rw [if_pos (by norm_num)]

/-- Witness for C10: the general clauses applied at the concrete isolated
center pixel of the 3×3 fixture layer. -/
theorem c10_witness :
    (IT.walkAux fxC10Layer 1 1 35 1 1 0 [] (List.replicate 9 false)).1 =
      [] ++ [⟨(1 : ℚ), (1 : ℚ)⟩] ∧
    IT.pathToSvg [⟨7, 7⟩] fxOpts16 = some "" :=
  ⟨c10_isolated_pixel_dropped.1 fxC10Layer 1 1 35 [] (List.replicate 9 false)
    (by decide) (by decide) (by decide) (by decide),
   c10_isolated_pixel_dropped.2.1 [⟨7, 7⟩] fxOpts16 [⟨7, 7⟩] rfl (by norm_num)⟩

namespace IT

theorem clampStore_pos (v : ℝ) (h1 : 1 ≤ v) (h2 : v ≤ 254) :
    1 ≤ clampStore (some v) := by
  simp only [clampStore]
  rw [max_eq_right (by linarith), min_eq_right (by linarith)]
  have hf : (1 : ℤ) ≤ ⌊v⌋ := by
    rw [Int.le_floor]
    exact_mod_cast h1
  split_ifs <;> omega

theorem clampStore_le (v : ℝ) (h2 : v ≤ 254) : clampStore (some v) ≤ 255 := by
  simp only [clampStore]
  have hx : min 255 (max 0 v) ≤ 254 :=
    le_trans (min_le_right _ _) (max_le (by norm_num) h2)
  have hf : ⌊min 255 (max 0 v)⌋ ≤ 254 := by
    have := Int.floor_le_floor hx
    simpa using this
  split_ifs <;> omega

theorem clampStore_natCast (n : ℕ) (hn : n ≤ 255) :
    clampStore (some (n : ℝ)) = n := by
  simp only [clampStore]
  rw [max_eq_right (by positivity), min_eq_right (by exact_mod_cast hn),
    Int.floor_natCast]
  push_cast
  rw [sub_self, if_pos (by norm_num)]
  simp

theorem gaussKernel_one_spec : ∃ a b : ℝ, gaussKernel 1 = [a, b, a] ∧
    1/5 < a ∧ a < 1/2 ∧ a + b + a = 1 := by
  have he : (0 : ℝ) < Real.exp (-(1/2)) := Real.exp_pos _
  have hrange : List.range (2 * 1 + 1) = [0, 1, 2] := rfl
  unfold gaussKernel
  rw [hrange]
  simp only [List.map_cons, List.map_nil, List.sum_cons, List.sum_nil]
  norm_num
  refine ⟨Real.exp (-(1/2)) / (Real.exp (-(1/2)) + (1 + Real.exp (-(1/2)))),
    (Real.exp (-(1/2)) + (1 + Real.exp (-(1/2))))⁻¹, ⟨rfl, rfl, rfl⟩, ?_, ?_, ?_⟩
  · have hS : (0 : ℝ) < Real.exp (-(1/2)) + (1 + Real.exp (-(1/2))) := by linarith
    have hsq : Real.exp (1/2) * Real.exp (1/2) = Real.exp 1 := by
      rw [← Real.exp_add]
      norm_num
    have hlt3 : Real.exp (1/2) < 3 := by
      nlinarith [Real.exp_one_lt_d9, Real.exp_pos (1/2)]
    have hmul : Real.exp (-(1/2)) * Real.exp (1/2) = 1 := by
      rw [← Real.exp_add]
      norm_num
    have he3 : 1/3 < Real.exp (-(1/2)) := by
      nlinarith [Real.exp_pos (1/2)]
    rw [lt_div_iff₀ hS]
    nlinarith
  · have hS : (0 : ℝ) < Real.exp (-(1/2)) + (1 + Real.exp (-(1/2))) := by linarith
    rw [div_lt_iff₀ hS]
    nlinarith
  · have hS : Real.exp (-(1/2)) + (1 + Real.exp (-(1/2))) ≠ 0 := by positivity
    field_simp
    ring

theorem traceState_blur (imgd : ImageData) (opts : TraceOptions)
    (hb : 0 < opts.blurradius) (hm : opts.colorMode = ColorMode.color) :
    traceState imgd opts = blur imgd opts.blurradius := by
  simp only [traceState, hm, if_pos hb]

end IT

namespace IT

theorem mapRange_getD (n : ℕ) (f : ℕ → ℕ) (i : ℕ) (hi : i < n) :
    ((List.range n).map f).getD i 0 = f i := by
  rw [List.getD_eq_getElem _ _ (by simpa using hi), List.getElem_map,
    List.getElem_range]

theorem convolveTaps_eq (src : List ℕ) (kernel : List ℝ) (size : ℕ) (idx : ℕ → ℕ) :
    convolveTaps src kernel size idx =
      if (List.range size).all (fun k => idx k < src.length) then
        some (∑ k ∈ Finset.range size, (src.getD (idx k) 0 : ℝ) * kernel.getD k 0)
      else none := rfl

theorem blur_getD (imgd : ImageData) (radius : ℕ) (hr : ¬ radius < 1) (i : ℕ)
    (hi : i < imgd.data.length) (hig : i < 4 * imgd.width * imgd.height) :
    (blur imgd radius).data.getD i 0 =
      clampStore (convolveTaps
        ((List.range imgd.data.length).map (fun idx =>
          if idx < 4 * imgd.width * imgd.height then
            clampStore (convolveTaps imgd.data (gaussKernel radius) (2*radius+1)
              (fun k => tapIndexH imgd.width (idx / 4 / imgd.width)
                ((idx / 4) % imgd.width) radius k (idx % 4)))
          else imgd.data.getD idx 0))
        (gaussKernel radius) (2*radius+1)
        (fun k => tapIndexV imgd.width imgd.height (i / 4 / imgd.width)
          ((i / 4) % imgd.width) radius k (i % 4))) := by
  simp only [blur]
  rw [if_neg hr]
  rw [mapRange_getD _ _ i hi, if_pos hig]

end IT

namespace IT

theorem blur_byte0_pos : 1 ≤ (blur fxBlurImg 1).data.getD 0 0 := by
  obtain ⟨a, b, hk, ha5, ha2, hsum⟩ := gaussKernel_one_spec
  have hH : convolveTaps [0, 0, 0, 255, 255, 255, 255, 255] (gaussKernel 1) 3
      (fun k => tapIndexH 2 0 0 1 k 0) = some (255 * a) := by
    rw [convolveTaps_eq]
    rw [if_pos (by decide)]
    congr 1
    rw [Finset.sum_range_succ, Finset.sum_range_succ, Finset.sum_range_one]
    simp only [show tapIndexH 2 0 0 1 0 0 = 0 from rfl,
      show tapIndexH 2 0 0 1 1 0 = 0 from rfl,
      show tapIndexH 2 0 0 1 2 0 = 4 from rfl, hk,
      show ([0, 0, 0, 255, 255, 255, 255, 255] : List ℕ).getD 0 0 = 0 from rfl,
      show ([0, 0, 0, 255, 255, 255, 255, 255] : List ℕ).getD 4 0 = 255 from rfl,
      show ([a, b, a] : List ℝ).getD 0 0 = a from rfl,
      show ([a, b, a] : List ℝ).getD 1 0 = b from rfl,
      show ([a, b, a] : List ℝ).getD 2 0 = a from rfl]
    push_cast
    ring
  have h51 : (51 : ℝ) < 255 * a := by nlinarith
  have h254 : 255 * a ≤ 254 := by nlinarith
  have hB1 : 1 ≤ clampStore (some (255 * a)) := clampStore_pos _ (by linarith) h254
  have hB255 : clampStore (some (255 * a)) ≤ 255 := clampStore_le _ h254
  have hlist : ((List.range fxBlurImg.data.length).map (fun idx =>
      if idx < 4 * fxBlurImg.width * fxBlurImg.height then
        clampStore (convolveTaps fxBlurImg.data (gaussKernel 1) 3
          (fun k => tapIndexH fxBlurImg.width (idx / 4 / fxBlurImg.width)
            ((idx / 4) % fxBlurImg.width) 1 k (idx % 4)))
      else fxBlurImg.data.getD idx 0)).getD 0 0 = clampStore (some (255 * a)) := by
    rw [mapRange_getD _ _ 0 (by norm_num [fxBlurImg])]
    norm_num [fxBlurImg]
    rw [hH]
  have hlen : ((List.range fxBlurImg.data.length).map (fun idx =>
      if idx < 4 * fxBlurImg.width * fxBlurImg.height then
        clampStore (convolveTaps fxBlurImg.data (gaussKernel 1) 3
          (fun k => tapIndexH fxBlurImg.width (idx / 4 / fxBlurImg.width)
            ((idx / 4) % fxBlurImg.width) 1 k (idx % 4)))
      else fxBlurImg.data.getD idx 0)).length = 8 := by
    simp [fxBlurImg]
  have hV : convolveTaps ((List.range fxBlurImg.data.length).map (fun idx =>
      if idx < 4 * fxBlurImg.width * fxBlurImg.height then
        clampStore (convolveTaps fxBlurImg.data (gaussKernel 1) 3
          (fun k => tapIndexH fxBlurImg.width (idx / 4 / fxBlurImg.width)
            ((idx / 4) % fxBlurImg.width) 1 k (idx % 4)))
      else fxBlurImg.data.getD idx 0))
      (gaussKernel 1) 3
      (fun k => tapIndexV fxBlurImg.width fxBlurImg.height (0 / 4 / fxBlurImg.width)
        ((0 / 4) % fxBlurImg.width) 1 k (0 % 4)) =
      some ((clampStore (some (255 * a)) : ℝ)) := by
    rw [convolveTaps_eq]
    rw [if_pos (by
      simp only [hlen]
      decide)]
    congr 1
    rw [Finset.sum_range_succ, Finset.sum_range_succ, Finset.sum_range_one]
    simp only [show tapIndexV fxBlurImg.width fxBlurImg.height (0 / 4 / fxBlurImg.width)
        ((0 / 4) % fxBlurImg.width) 1 0 (0 % 4) = 0 from rfl,
      show tapIndexV fxBlurImg.width fxBlurImg.height (0 / 4 / fxBlurImg.width)
        ((0 / 4) % fxBlurImg.width) 1 1 (0 % 4) = 0 from rfl,
      show tapIndexV fxBlurImg.width fxBlurImg.height (0 / 4 / fxBlurImg.width)
        ((0 / 4) % fxBlurImg.width) 1 2 (0 % 4) = 0 from rfl]
    simp only [hlist]
    simp only [hk, show ([a, b, a] : List ℝ).getD 0 0 = a from rfl,
      show ([a, b, a] : List ℝ).getD 1 0 = b from rfl,
      show ([a, b, a] : List ℝ).getD 2 0 = a from rfl]
    linear_combination ((clampStore (some (255 * a)) : ℕ) : ℝ) * hsum
  rw [blur_getD fxBlurImg 1 (by norm_num) 0 (by norm_num [fxBlurImg])
    (by norm_num [fxBlurImg])]
  rw [show (2 : ℕ) * 1 + 1 = 3 from rfl]
  rw [hV, clampStore_natCast _ hB255]
  exact hB1

end IT

/-- C9 (amended): `blur` is **not** out-of-place.  Its horizontal pass does
use a fresh intermediate buffer (so the convolution itself is correct), but
the vertical pass writes back into the caller's buffer, which `blur` also
returns: after tracing with a positive blur radius (in color mode, where no
further per-pixel mutation follows) the caller's buffer holds exactly blur's
output — which the counterexample shows can differ from the original bytes. -/
theorem c9_blur_mutates_buffer (imgd : IT.ImageData) (opts : IT.TraceOptions)
    (hb : 0 < opts.blurradius) (hm : opts.colorMode = IT.ColorMode.color) :
    IT.traceState imgd opts = IT.blur imgd opts.blurradius :=
  IT.traceState_blur imgd opts hb hm

/-- Witness for C9 at the concrete 2×1 image with blur radius 1. -/
theorem c9_witness :
    0 < fxBlurOpts.blurradius ∧ fxBlurOpts.colorMode = IT.ColorMode.color ∧
    IT.traceState fxBlurImg fxBlurOpts = IT.blur fxBlurImg fxBlurOpts.blurradius :=
  ⟨by decide, rfl, c9_blur_mutates_buffer fxBlurImg fxBlurOpts (by decide) rfl⟩

/-- C9 counterexample: tracing the 2×1 black/white image with blur radius 1
changes the caller's buffer — the first byte becomes a strictly positive
blurred value (the kernel bounds put it between 51 and 128) where the
original byte was 0.  So the bytes of the original pixel buffer are *not*
unchanged after tracing with a positive blur radius. -/
theorem c9_counterexample : IT.traceState fxBlurImg fxBlurOpts ≠ fxBlurImg := by
  rw [IT.traceState_blur fxBlurImg fxBlurOpts (by decide) rfl]
  intro heq
  have hbyte := IT.blur_byte0_pos
  have hproj := congrArg (fun im : IT.ImageData => im.data.getD 0 0) heq
  simp only [] at hproj
  rw [show fxBlurImg.data.getD 0 0 = 0 from rfl] at hproj
  rw [show fxBlurOpts.blurradius = 1 from rfl] at hproj
  omega
